import Mathlib

/-!
Verification of the tosmonitor change-detection pipeline.

This file gives a shallow embedding, in Lean 4, of the core of the
`tosmonitor` backend: the diff engine (`app/scraper/differ.py`, built on
Python's `difflib`), the page fetcher retry loop (`app/scraper/fetcher.py`),
the summarizer normalization (`app/scraper/summarizer.py`), the tier table
(`app/tiers.py`), the alert dispatcher (`app/services/alerts.py`), the
sales bridge (`app/services/sales_bridge.py`) and the scan orchestrator
(`app/scraper/scheduler.py`), together with theorems about the embedded
definitions.

Conventions used throughout the embedding:
* Python strings are Lean `String`s; character-level algorithms work on
  `String.data : List Char` (Python strings are sequences of code points,
  so `List Char` is an exact model).
* I/O collaborators (the network, the LLM provider, e-mail/webhook
  delivery, the sales-agent file system) are modelled as explicit oracle
  parameters describing the outcome of each external interaction; the
  repository code under test is translated literally on top of them.
* Database rows are records in lists; SQLAlchemy queries used by the code
  (`filter`/`order_by`/`limit 1`) are translated to list operations.
* Timestamps (`func.now()` column defaults) are modelled by a logical
  clock that yields a fresh, strictly increasing `Nat` per insert.
-/

/-! ### Python string semantics

Helpers mirroring the exact Python `str` operations the source uses:
`splitlines(keepends=True)`, `split()` (whitespace split), `strip()`,
`isupper()`, `istitle()`, `lower()`.
-/

/-- Characters treated as line boundaries by Python `str.splitlines`. -/
def isPyLineBreak (c : Char) : Bool :=
  c = '\n' || c = '\r' || c.val = 0x0b || c.val = 0x0c ||
  c.val = 0x1c || c.val = 0x1d || c.val = 0x1e || c.val = 0x85 ||
  c.val = 0x2028 || c.val = 0x2029

/-- Characters treated as whitespace by Python `str.split()` / `str.strip()`
(the Unicode whitespace property). -/
def isPySpace (c : Char) : Bool :=
  c = ' ' || c = '\t' || c = '\n' || c = '\r' || c.val = 0x0b || c.val = 0x0c ||
  (0x1c ≤ c.val && c.val ≤ 0x1f) || c.val = 0x85 || c.val = 0xa0 ||
  c.val = 0x1680 || (0x2000 ≤ c.val && c.val ≤ 0x200a) ||
  c.val = 0x2028 || c.val = 0x2029 || c.val = 0x202f || c.val = 0x205f ||
  c.val = 0x3000

/-- Accumulator version of Python `str.splitlines(keepends=True)` on code
points: `acc` holds the (reversed) current line prefix. -/
def splitlinesAux : List Char → List Char → List (List Char)
  | [], acc => if acc.isEmpty then [] else [acc.reverse]
  | '\r' :: '\n' :: rest, acc => (acc.reverse ++ ['\r', '\n']) :: splitlinesAux rest []
  | c :: rest, acc =>
      if isPyLineBreak c then (acc.reverse ++ [c]) :: splitlinesAux rest []
      else splitlinesAux rest (c :: acc)

/-- Python `s.splitlines(keepends=True)`, as used by `compute_diff` to turn
the two texts into line lists. -/
def pySplitlines (s : String) : List String :=
  (splitlinesAux s.data []).map String.mk

/-- Python `str.split()` with no separator: maximal runs of non-whitespace
code points, with empty tokens dropped. -/
def pySplitWs (l : List Char) : List (List Char) :=
  (l.splitOnP isPySpace).filter (fun w => ¬ w.isEmpty)

/-- Python `str.strip()` with no argument (strip whitespace on both ends). -/
def pyStrip (l : List Char) : List Char :=
  ((l.dropWhile isPySpace).reverse.dropWhile isPySpace).reverse

/-- Python considers a character cased if it is uppercase, lowercase or
titlecase; `Char.isUpper`/`Char.isLower` model the cases occurring in the
monitored texts. -/
def pyCased (c : Char) : Bool := c.isUpper || c.isLower

/-- Python `str.isupper()`: at least one cased character and no lowercase
character. -/
def pyIsUpper (l : List Char) : Bool :=
  l.any pyCased && l.all (fun c => ¬ c.isLower)

/-- Scanner state for `str.istitle()`: (still valid, previous character was
cased, some cased character seen). -/
def pyIsTitleStep : (Bool × Bool × Bool) → Char → (Bool × Bool × Bool)
  | (ok, prevCased, found), c =>
    if c.isUpper then (ok && ¬ prevCased, true, true)
    else if c.isLower then (ok && prevCased, true, true)
    else (ok, false, found)

/-- Python `str.istitle()`: uppercase characters may only follow uncased
ones, lowercase only cased ones, and at least one cased character occurs. -/
def pyIsTitle (l : List Char) : Bool :=
  let (ok, _, found) := l.foldl pyIsTitleStep (true, false, false)
  ok && found

/-- Python `str.lower()` on code points. -/
def pyLower (l : List Char) : List Char := l.map Char.toLower

set_option maxHeartbeats 1000000 in
theorem splitlinesAux_join (s acc : List Char) :
    (splitlinesAux s acc).flatten = acc.reverse ++ s := by
  induction s, acc using splitlinesAux.induct with
  | case1 acc h =>
    simp [splitlinesAux, h, List.isEmpty_iff.mp h]
  | case2 acc h =>
    simp [splitlinesAux, h]
  | case3 rest acc ih =>
    simp [splitlinesAux, ih]
  | case4 c rest acc hne hbr ih =>
    simp only [splitlinesAux]
    rw [if_pos hbr]
    simp [ih]
  | case5 c rest acc hne hbr ih =>
    simp only [splitlinesAux]
    rw [if_neg hbr]
    simp [ih]

/-- Joining the `keepends=True` line split reproduces the original string:
line splitting loses no information. -/
theorem pySplitlines_join (s : String) :
    String.mk (((splitlinesAux s.data []).flatten)) = s := by
  rw [splitlinesAux_join]
  simp

/-- Distinct texts have distinct `splitlines(keepends=True)` line lists. -/
theorem pySplitlines_injective {s t : String} (h : pySplitlines s = pySplitlines t) :
    s = t := by
  have hflat : (splitlinesAux s.data []).flatten = (splitlinesAux t.data []).flatten := by
    have : (splitlinesAux s.data []).map String.mk = (splitlinesAux t.data []).map String.mk := h
    have hdata := congrArg (List.map String.data) this
    simp only [List.map_map] at hdata
    have : (splitlinesAux s.data []) = (splitlinesAux t.data []) := by
      have hid : ∀ u : List (List Char),
          u.map (String.data ∘ String.mk) = u := by
        intro u; induction u with
        | nil => rfl
        | cons a u ih => simp [ih]
      rw [hid, hid] at hdata; exact hdata
    rw [this]
  have := congrArg String.mk hflat
  rw [pySplitlines_join, pySplitlines_join] at this
  exact this

/-! ### difflib.SequenceMatcher

The differ computes its similarity ratio and its unified diff through
Python's `difflib.SequenceMatcher(None, a, b)`.  The embedding below
translates difflib's algorithm literally, generically over the element
type (`Char` for the character-level ratio, `String` for the line-level
unified diff).  Both call sites pass `isjunk=None`, so `bjunk = ∅` and the
junk-extension loops of `find_longest_match` never execute; they are
therefore omitted.  The `autojunk` heuristic (elements of `b` occurring
more than `len(b)//100 + 1` times when `len(b) >= 200` are dropped from
`b2j`) is modelled exactly.
-/

section SequenceMatcher

variable {α : Type} [DecidableEq α] [Inhabited α]

/-- Element `x` is "popular" in `b` (autojunk heuristic of `__chain_b`). -/
def isPopular (b : List α) (x : α) : Bool :=
  decide (200 ≤ b.length) && decide (b.length / 100 + 1 < b.count x)

/-- The `b2j` dictionary of `__chain_b`, as a function: the increasing list
of positions of `x` in `b`, empty for popular (auto-junked) elements. -/
def b2j (b : List α) (x : α) : List Nat :=
  if isPopular b x then []
  else (List.range b.length).filter (fun j => decide (b.get? j = some x))

/-- Lookup in the `j2len` dictionary (`j2len.get(j-1, 0)` uses default 0). -/
def j2get : List (Nat × Nat) → Nat → Nat
  | [], _ => 0
  | (j, k) :: rest, j' => if j = j' then k else j2get rest j'

/-- State of `find_longest_match`'s outer loop. -/
structure FlmState where
  besti : Nat
  bestj : Nat
  bestsize : Nat
  j2len : List (Nat × Nat)

/-- Inner loop of `find_longest_match` over the occurrence list
`b2j.get(a[i])`, building `newj2len` and updating the best block.
Pythonic `i-k+1` / `j-k+1` are written `i+1-k` / `j+1-k` (no truncation
since `k ≤ i+1` and `k ≤ j+1` at every update). -/
def flmInner (i : Nat) (old : List (Nat × Nat)) :
    List Nat → List (Nat × Nat) → Nat → Nat → Nat → List (Nat × Nat) × Nat × Nat × Nat
  | [], nj, bi, bj, bs => (nj, bi, bj, bs)
  | j :: js, nj, bi, bj, bs =>
      let k := (if j = 0 then 0 else j2get old (j - 1)) + 1
      if bs < k then flmInner i old js (nj ++ [(j, k)]) (i + 1 - k) (j + 1 - k) k
      else flmInner i old js (nj ++ [(j, k)]) bi bj bs

/-- Outer loop of `find_longest_match` over `i in range(alo, ahi)`.  The
`j < blo` continue / `j >= bhi` break over the increasing list
`b2j.get(a[i])` is the shown filter. -/
def flmScan (a b : List α) (blo bhi : Nat) : List Nat → FlmState → FlmState
  | [], st => st
  | i :: is, st =>
      let js := (b2j b (a.getD i default)).filter
        (fun j => decide (blo ≤ j) && decide (j < bhi))
      let r := flmInner i st.j2len js [] st.besti st.bestj st.bestsize
      flmScan a b blo bhi is ⟨r.2.1, r.2.2.1, r.2.2.2, r.1⟩

/-- First extension loop: grow the best block downward while the elements
before it match.  Structural recursion on `besti`: the loop decrements
`besti`, and its guard `besti > alo` forces `besti > 0` (likewise
`bestj`), so the fall-through cases return unchanged exactly as the
Python loop does. -/
def extendLow (a b : List α) (alo blo : Nat) :
    Nat → Nat → Nat → Nat × Nat × Nat
  | bi + 1, bj + 1, bs =>
      if alo < bi + 1 ∧ blo < bj + 1 ∧ a.getD bi default = b.getD bj default then
        extendLow a b alo blo bi bj (bs + 1)
      else (bi + 1, bj + 1, bs)
  | bi, bj, bs => (bi, bj, bs)

/-- Second extension loop, with fuel `ahi - (besti + bestsize)`: the fuel
is exactly the number of remaining iterations (when it is 0 the loop
guard `besti + bestsize < ahi` is false and the Python loop stops too),
so the translation is exact. -/
def extendHighF (a b : List α) (ahi bhi besti bestj : Nat) :
    Nat → Nat → Nat
  | 0, bs => bs
  | rem + 1, bs =>
      if besti + bs < ahi ∧ bestj + bs < bhi ∧
          a.getD (besti + bs) default = b.getD (bestj + bs) default then
        extendHighF a b ahi bhi besti bestj rem (bs + 1)
      else bs

/-- Second extension loop: grow the best block upward while the elements
after it match. -/
def extendHigh (a b : List α) (ahi bhi besti bestj bestsize : Nat) : Nat :=
  extendHighF a b ahi bhi besti bestj (ahi - (besti + bestsize)) bestsize

/-- `SequenceMatcher.find_longest_match(alo, ahi, blo, bhi)` with
`isjunk=None`: scan, then the two non-junk extension loops (the junk
extension loops are no-ops since `bjunk = ∅`). -/
def findLongestMatch (a b : List α) (alo ahi blo bhi : Nat) : Nat × Nat × Nat :=
  let st := flmScan a b blo bhi (List.range' alo (ahi - alo)) ⟨alo, blo, 0, []⟩
  let e := extendLow a b alo blo st.besti st.bestj st.bestsize
  (e.1, e.2.1, extendHigh a b ahi bhi e.1 e.2.1 e.2.2)

/-- Positions `i..i+k-1` of `a` match positions `j..j+k-1` of `b`
elementwise, all in range. -/
def MatchAt (a b : List α) (i j k : Nat) : Prop :=
  ∀ t, t < k → i + t < a.length ∧ j + t < b.length ∧
    a.getD (i + t) default = b.getD (j + t) default

theorem matchAt_zero (a b : List α) (i j : Nat) : MatchAt a b i j 0 := by
  intro t ht; omega

theorem matchAt_snoc {a b : List α} {i j k : Nat} (h : MatchAt a b i j k)
    (ha : i + k < a.length) (hb : j + k < b.length)
    (he : a.getD (i + k) default = b.getD (j + k) default) :
    MatchAt a b i j (k + 1) := by
  intro t ht
  rcases Nat.lt_succ_iff_lt_or_eq.mp ht with h1 | h1
  · exact h t h1
  · subst h1; exact ⟨ha, hb, he⟩

theorem matchAt_cons {a b : List α} {i j k : Nat} (h : MatchAt a b i j k)
    (hi : 1 ≤ i) (hj : 1 ≤ j) (ha : i - 1 < a.length) (hb : j - 1 < b.length)
    (he : a.getD (i - 1) default = b.getD (j - 1) default) :
    MatchAt a b (i - 1) (j - 1) (k + 1) := by
  intro t ht
  cases t with
  | zero => simp only [Nat.add_zero]; exact ⟨ha, hb, he⟩
  | succ t =>
    have h1 : i - 1 + (t + 1) = i + t := by omega
    have h2 : j - 1 + (t + 1) = j + t := by omega
    rw [h1, h2]
    exact h t (by omega)

theorem b2j_sound {b : List α} {x : α} {j : Nat} (h : j ∈ b2j b x) :
    j < b.length ∧ b.getD j default = x := by
  unfold b2j at h
  split at h
  · simp at h
  · simp only [List.mem_filter, List.mem_range, decide_eq_true_eq] at h
    obtain ⟨hj, hx⟩ := h
    refine ⟨hj, ?_⟩
    show (b.get? j).getD default = x
    rw [hx]
    rfl

theorem j2get_mem {l : List (Nat × Nat)} {m : Nat} (h : j2get l m ≠ 0) :
    (m, j2get l m) ∈ l := by
  induction l with
  | nil => simp [j2get] at h
  | cons p rest ih =>
    obtain ⟨j, k⟩ := p
    by_cases hj : j = m
    · subst hj
      simp only [j2get, if_pos rfl] at h ⊢
      simp
    · simp only [j2get, if_neg hj] at h ⊢
      exact List.mem_cons_of_mem _ (ih h)

/-- Invariant of the `j2len` dictionary: entry `(j, k)` records a run of
`k` matching elements ending at `a[e-1]` and `b[j]`, lying within
`[alo, e) × [blo, bhi)`. -/
def J2Inv (a b : List α) (alo blo bhi e : Nat) (l : List (Nat × Nat)) : Prop :=
  ∀ p ∈ l, 1 ≤ p.2 ∧ p.2 ≤ e - alo ∧ p.2 ≤ p.1 + 1 - blo ∧ blo ≤ p.1 ∧
    p.1 < bhi ∧ MatchAt a b (e - p.2) (p.1 + 1 - p.2) p.2

/-- Invariant of the best block: it lies within the window and is a real
match. -/
def BestInv (a b : List α) (alo ahi blo bhi bi bj bs : Nat) : Prop :=
  alo ≤ bi ∧ blo ≤ bj ∧ bi + bs ≤ ahi ∧ bj + bs ≤ bhi ∧ MatchAt a b bi bj bs


theorem flmInner_spec (a b : List α) (alo ahi blo bhi : Nat)
    (ha : ahi ≤ a.length) (i : Nat) (hi : alo ≤ i) (hia : i < ahi)
    (old : List (Nat × Nat)) (hold : J2Inv a b alo blo bhi i old) :
    ∀ js nj bi bj bs,
      (∀ j ∈ js, blo ≤ j ∧ j < bhi ∧ j < b.length ∧
        b.getD j default = a.getD i default) →
      J2Inv a b alo blo bhi (i + 1) nj →
      BestInv a b alo ahi blo bhi bi bj bs →
      J2Inv a b alo blo bhi (i + 1) (flmInner i old js nj bi bj bs).1 ∧
      BestInv a b alo ahi blo bhi (flmInner i old js nj bi bj bs).2.1
        (flmInner i old js nj bi bj bs).2.2.1 (flmInner i old js nj bi bj bs).2.2.2 := by
  intro js
  induction js with
  | nil =>
    intro nj bi bj bs _ hnj hbest
    exact ⟨hnj, hbest⟩
  | cons j js ih =>
    intro nj bi bj bs hjs hnj hbest
    obtain ⟨hjblo, hjbhi, hjlen, hjeq⟩ := hjs j (List.mem_cons_self _ _)
    have hjs' : ∀ j' ∈ js, blo ≤ j' ∧ j' < bhi ∧ j' < b.length ∧
        b.getD j' default = a.getD i default :=
      fun j' hj' => hjs j' (List.mem_cons_of_mem _ hj')
    have hilen : i < a.length := lt_of_lt_of_le hia ha
    have hone : MatchAt a b i j 1 := by
      intro t ht
      have ht0 : t = 0 := by omega
      subst ht0
      simp only [Nat.add_zero]
      exact ⟨hilen, hjlen, hjeq.symm⟩
    have hunf : flmInner i old (j :: js) nj bi bj bs =
        if bs < (if j = 0 then 0 else j2get old (j - 1)) + 1 then
          flmInner i old js (nj ++ [(j, (if j = 0 then 0 else j2get old (j - 1)) + 1)])
            (i + 1 - ((if j = 0 then 0 else j2get old (j - 1)) + 1))
            (j + 1 - ((if j = 0 then 0 else j2get old (j - 1)) + 1))
            ((if j = 0 then 0 else j2get old (j - 1)) + 1)
        else flmInner i old js
          (nj ++ [(j, (if j = 0 then 0 else j2get old (j - 1)) + 1)]) bi bj bs := rfl
    rw [hunf]
    set k0 := (if j = 0 then 0 else j2get old (j - 1)) with hk0
    have hfact : 1 ≤ k0 + 1 ∧ k0 + 1 ≤ i + 1 - alo ∧ k0 + 1 ≤ j + 1 - blo ∧
        MatchAt a b (i + 1 - (k0 + 1)) (j + 1 - (k0 + 1)) (k0 + 1) := by
      by_cases hz : k0 = 0
      · rw [hz]
        have e1 : i + 1 - (0 + 1) = i := by omega
        have e2 : j + 1 - (0 + 1) = j := by omega
        rw [e1, e2]
        exact ⟨le_refl _, by omega, by omega, hone⟩
      · have hj0 : j ≠ 0 := by
          intro hj0
          rw [hk0, if_pos hj0] at hz
          exact hz rfl
        have hget : j2get old (j - 1) = k0 := by
          rw [hk0, if_neg hj0]
        have hmem : (j - 1, k0) ∈ old := by
          rw [← hget]
          exact j2get_mem (by rw [hget]; exact hz)
        obtain ⟨hr1, hr2, hr3, hr4, hr5, hr6⟩ := hold _ hmem
        simp only at hr1 hr2 hr3 hr4 hr5 hr6
        have hj1 : 1 ≤ j := by omega
        have hk0i : k0 ≤ i := by omega
        have hk0j : k0 ≤ j := by omega
        have e1 : j - 1 + 1 - k0 = j - k0 := by omega
        rw [e1] at hr6
        have hsn : MatchAt a b (i - k0) (j - k0) (k0 + 1) := by
          refine matchAt_snoc hr6 ?_ ?_ ?_
          · have : i - k0 + k0 = i := by omega
            rw [this]; exact hilen
          · have : j - k0 + k0 = j := by omega
            rw [this]; exact hjlen
          · have e2 : i - k0 + k0 = i := by omega
            have e3 : j - k0 + k0 = j := by omega
            rw [e2, e3]; exact hjeq.symm
        have e4 : i + 1 - (k0 + 1) = i - k0 := by omega
        have e5 : j + 1 - (k0 + 1) = j - k0 := by omega
        rw [e4, e5]
        exact ⟨by omega, by omega, by omega, hsn⟩
    obtain ⟨hf1, hf2, hf3, hf4⟩ := hfact
    have hnj' : J2Inv a b alo blo bhi (i + 1) (nj ++ [(j, k0 + 1)]) := by
      intro p hp
      rcases List.mem_append.mp hp with h1 | h1
      · exact hnj p h1
      · have hpj : p = (j, k0 + 1) := by simpa using h1
        subst hpj
        exact ⟨hf1, hf2, hf3, hjblo, hjbhi, hf4⟩
    by_cases hbs : bs < k0 + 1
    · rw [if_pos hbs]
      refine ih _ _ _ _ hjs' hnj' ?_
      refine ⟨by omega, by omega, ?_, ?_, hf4⟩
      · have : i + 1 - (k0 + 1) + (k0 + 1) = i + 1 := by omega
        rw [this]; omega
      · have : j + 1 - (k0 + 1) + (k0 + 1) = j + 1 := by omega
        rw [this]; omega
    · rw [if_neg hbs]
      exact ih _ _ _ _ hjs' hnj' hbest

theorem flmScan_spec (a b : List α) (alo ahi blo bhi : Nat) (ha : ahi ≤ a.length) :
    ∀ n i₀ st, alo ≤ i₀ → i₀ + n ≤ ahi →
      J2Inv a b alo blo bhi i₀ st.j2len →
      BestInv a b alo ahi blo bhi st.besti st.bestj st.bestsize →
      BestInv a b alo ahi blo bhi
        (flmScan a b blo bhi (List.range' i₀ n) st).besti
        (flmScan a b blo bhi (List.range' i₀ n) st).bestj
        (flmScan a b blo bhi (List.range' i₀ n) st).bestsize := by
  intro n
  induction n with
  | zero =>
    intro i₀ st _ _ _ hbest
    exact hbest
  | succ n ih =>
    intro i₀ st hi₀ hsum hj2 hbest
    have hr : List.range' i₀ (n + 1) = i₀ :: List.range' (i₀ + 1) n := rfl
    rw [hr]
    have hstep : flmScan a b blo bhi (i₀ :: List.range' (i₀ + 1) n) st =
        flmScan a b blo bhi (List.range' (i₀ + 1) n)
          (let js := (b2j b (a.getD i₀ default)).filter
            (fun j => decide (blo ≤ j) && decide (j < bhi))
           let r := flmInner i₀ st.j2len js [] st.besti st.bestj st.bestsize
           ⟨r.2.1, r.2.2.1, r.2.2.2, r.1⟩) := rfl
    rw [hstep]
    have hinner := flmInner_spec a b alo ahi blo bhi ha i₀ hi₀ (by omega) st.j2len hj2
      ((b2j b (a.getD i₀ default)).filter (fun j => decide (blo ≤ j) && decide (j < bhi)))
      [] st.besti st.bestj st.bestsize
      (by
        intro j hj
        simp only [List.mem_filter, Bool.and_eq_true, decide_eq_true_eq] at hj
        obtain ⟨hjb, hjr⟩ := hj
        obtain ⟨hlen, heq⟩ := b2j_sound hjb
        exact ⟨hjr.1, hjr.2, hlen, heq⟩)
      (by intro p hp; simp at hp)
      hbest
    exact ih (i₀ + 1) _ (by omega) (by omega) hinner.1 hinner.2

theorem extendLow_spec (a b : List α) (alo ahi blo bhi : Nat)
    (ha : ahi ≤ a.length) (hb : bhi ≤ b.length) :
    ∀ bi bj bs, BestInv a b alo ahi blo bhi bi bj bs →
      BestInv a b alo ahi blo bhi (extendLow a b alo blo bi bj bs).1
        (extendLow a b alo blo bi bj bs).2.1 (extendLow a b alo blo bi bj bs).2.2 := by
  intro bi
  induction bi with
  | zero =>
    intro bj bs hbest
    cases bj with
    | zero => exact hbest
    | succ bj => exact hbest
  | succ bi ih =>
    intro bj bs hbest
    cases bj with
    | zero => exact hbest
    | succ bj =>
      obtain ⟨h1, h2, h3, h4, h5⟩ := hbest
      simp only [extendLow]
      split
      · next hg =>
        refine ih bj (bs + 1) ?_
        refine ⟨by omega, by omega, by omega, by omega, ?_⟩
        have := matchAt_cons h5 (by omega) (by omega) (by omega) (by omega) hg.2.2
        simpa using this
      · exact ⟨h1, h2, h3, h4, h5⟩

theorem extendHighF_spec (a b : List α) (alo ahi blo bhi : Nat)
    (ha : ahi ≤ a.length) (hb : bhi ≤ b.length) (bi bj : Nat) :
    ∀ rem bs, BestInv a b alo ahi blo bhi bi bj bs →
      BestInv a b alo ahi blo bhi bi bj (extendHighF a b ahi bhi bi bj rem bs) := by
  intro rem
  induction rem with
  | zero => intro bs h; exact h
  | succ rem ih =>
    intro bs hbest
    obtain ⟨h1, h2, h3, h4, h5⟩ := hbest
    simp only [extendHighF]
    split
    · next hg =>
      exact ih (bs + 1)
        ⟨h1, h2, by omega, by omega, matchAt_snoc h5 (by omega) (by omega) hg.2.2⟩
    · exact ⟨h1, h2, h3, h4, h5⟩

/-- Main specification of `find_longest_match`: the returned block lies in
the requested window and is a genuine elementwise match. -/
theorem flm_spec (a b : List α) (alo ahi blo bhi : Nat)
    (ha : ahi ≤ a.length) (hb : bhi ≤ b.length) (halo : alo ≤ ahi) (hblo : blo ≤ bhi) :
    BestInv a b alo ahi blo bhi (findLongestMatch a b alo ahi blo bhi).1
      (findLongestMatch a b alo ahi blo bhi).2.1
      (findLongestMatch a b alo ahi blo bhi).2.2 := by
  have hunf : findLongestMatch a b alo ahi blo bhi =
      (let st := flmScan a b blo bhi (List.range' alo (ahi - alo)) ⟨alo, blo, 0, []⟩
       let e := extendLow a b alo blo st.besti st.bestj st.bestsize
       (e.1, e.2.1, extendHigh a b ahi bhi e.1 e.2.1 e.2.2)) := rfl
  rw [hunf]
  have hscan := flmScan_spec a b alo ahi blo bhi ha (ahi - alo) alo ⟨alo, blo, 0, []⟩
    (le_refl _) (by omega)
    (by intro p hp; simp at hp)
    ⟨le_refl _, le_refl _, (show alo + 0 ≤ ahi by omega),
      (show blo + 0 ≤ bhi by omega), matchAt_zero a b alo blo⟩
  have hlow := extendLow_spec a b alo ahi blo bhi ha hb _ _ _ hscan
  exact extendHighF_spec a b alo ahi blo bhi ha hb _ _ _ _ hlow

/-- Recursive core of `get_matching_blocks`.  difflib maintains an explicit
LIFO queue of ranges, collects one block per popped range and sorts the
collected list afterwards; every popped range is processed independently,
so the natural recursion collects the same multiset of blocks and the sort
makes the final list identical.  The fuel bounds the recursion depth;
`pyMatchingBlocks` supplies fuel exceeding the window measure
`(ahi - alo) + (bhi - blo)`, which strictly decreases at each recursive
call (`flm_spec`), so the out-of-fuel branch is unreachable there. -/
def matchingBlocksF (a b : List α) : Nat → Nat → Nat → Nat → Nat → List (Nat × Nat × Nat)
  | 0, _, _, _, _ => []
  | fuel + 1, alo, ahi, blo, bhi =>
    match findLongestMatch a b alo ahi blo bhi with
    | (i, j, k) =>
      if k = 0 then []
      else
        (if alo < i ∧ blo < j then matchingBlocksF a b fuel alo i blo j else []) ++
        ([(i, j, k)] ++
        (if i + k < ahi ∧ j + k < bhi then
          matchingBlocksF a b fuel (i + k) ahi (j + k) bhi else []))

/-- Lexicographic comparison on block triples: Python's
`matching_blocks.sort()` sorts tuples lexicographically. -/
def blockLe (x y : Nat × Nat × Nat) : Prop :=
  x.1 < y.1 ∨ (x.1 = y.1 ∧ (x.2.1 < y.2.1 ∨ (x.2.1 = y.2.1 ∧ x.2.2 ≤ y.2.2)))

instance : DecidableRel blockLe := fun x y => by unfold blockLe; infer_instance

instance : IsTotal (Nat × Nat × Nat) blockLe := ⟨by intro x y; unfold blockLe; omega⟩

instance : IsTrans (Nat × Nat × Nat) blockLe := ⟨by intro x y z; unfold blockLe; omega⟩

/-- Collapse adjacent blocks (second phase of `get_matching_blocks`); the
running triple starts at `(0, 0, 0)` exactly as in Python, and a running
`k1 = 0` is the initial dummy which is not emitted. -/
def collapseAux : Nat → Nat → Nat → List (Nat × Nat × Nat) → List (Nat × Nat × Nat)
  | i1, j1, k1, [] => if k1 ≠ 0 then [(i1, j1, k1)] else []
  | i1, j1, k1, (i2, j2, k2) :: rest =>
      if i1 + k1 = i2 ∧ j1 + k1 = j2 then collapseAux i1 j1 (k1 + k2) rest
      else (if k1 ≠ 0 then [(i1, j1, k1)] else []) ++ collapseAux i2 j2 k2 rest

/-- `SequenceMatcher.get_matching_blocks()`: recursion over the full
ranges, lexicographic sort, adjacent-block collapse, and the terminating
`(len(a), len(b), 0)` sentinel.  Python\'s sort is stable, but blocks of
distinct ranges are pairwise distinct, so any sort by `blockLe` yields the
same list. -/
def pyMatchingBlocks (a b : List α) : List (Nat × Nat × Nat) :=
  let blocks := matchingBlocksF a b (a.length + b.length + 1) 0 a.length 0 b.length
  collapseAux 0 0 0 (List.insertionSort blockLe blocks) ++ [(a.length, b.length, 0)]

/-- `SequenceMatcher.ratio()`: `2*M / (len(a) + len(b))` as an exact
rational (CPython computes this value in double precision; the exact
rational determines it). -/
def pyRatio (a b : List α) : ℚ :=
  let msum := ((pyMatchingBlocks a b).map (fun t => t.2.2)).sum
  if a.length + b.length ≠ 0 then
    mkRat (2 * (msum : Int)) (a.length + b.length)
  else 1

/-- Tags of `SequenceMatcher.get_opcodes()`. -/
inductive OpTag where
  | replace
  | delete
  | insert
  | equal
deriving DecidableEq, Repr

/-- One opcode `(tag, i1, i2, j1, j2)`. -/
abbrev Opcode := OpTag × Nat × Nat × Nat × Nat

/-- Loop of `get_opcodes()` over the matching blocks, carrying the cursor
`(i, j)`. -/
def opcodesAux : Nat → Nat → List (Nat × Nat × Nat) → List Opcode
  | _, _, [] => []
  | i, j, (ai, bj, size) :: rest =>
      (if i < ai ∧ j < bj then [(OpTag.replace, i, ai, j, bj)]
       else if i < ai then [(OpTag.delete, i, ai, j, bj)]
       else if j < bj then [(OpTag.insert, i, ai, j, bj)]
       else []) ++
      ((if size ≠ 0 then [(OpTag.equal, ai, ai + size, bj, bj + size)] else []) ++
       opcodesAux (ai + size) (bj + size) rest)

/-- `SequenceMatcher.get_opcodes()`. -/
def pyOpcodes (a b : List α) : List Opcode :=
  opcodesAux 0 0 (pyMatchingBlocks a b)

/-- First fixup of `get_grouped_opcodes(3)`: trim a leading equal run to
the last `n = 3` lines. -/
def fixHead : List Opcode → List Opcode
  | (OpTag.equal, i1, i2, j1, j2) :: rest =>
      (OpTag.equal, max i1 (i2 - 3), i2, max j1 (j2 - 3), j2) :: rest
  | l => l

/-- Second fixup of `get_grouped_opcodes(3)`: trim a trailing equal run to
the first `n = 3` lines. -/
def fixLast : List Opcode → List Opcode
  | [] => []
  | [(OpTag.equal, i1, i2, j1, j2)] =>
      [(OpTag.equal, i1, min i2 (i1 + 3), j1, min j2 (j1 + 3))]
  | [op] => [op]
  | op :: rest => op :: fixLast rest

/-- Grouping loop of `get_grouped_opcodes(3)` (`nn = 6`): an interior equal
run longer than `nn` closes the current group; a final group is emitted
unless it is a single equal opcode. -/
def groupAux : List Opcode → List Opcode → List (List Opcode)
  | group, [] =>
      if group ≠ [] ∧
          ¬(group.length = 1 ∧ (group.headD (OpTag.equal, 0, 0, 0, 0)).1 = OpTag.equal)
      then [group] else []
  | group, (tag, i1, i2, j1, j2) :: rest =>
      if tag = OpTag.equal ∧ 6 < i2 - i1 then
        (group ++ [(tag, i1, min i2 (i1 + 3), j1, min j2 (j1 + 3))]) ::
          groupAux [(tag, max i1 (i2 - 3), i2, max j1 (j2 - 3), j2)] rest
      else groupAux (group ++ [(tag, i1, i2, j1, j2)]) rest

/-- `SequenceMatcher.get_grouped_opcodes()` with the default `n = 3` used
by `unified_diff`. -/
def pyGroupedOpcodes (a b : List α) : List (List Opcode) :=
  let codes := pyOpcodes a b
  let codes := if codes = [] then [(OpTag.equal, 0, 1, 0, 1)] else codes
  groupAux [] (fixLast (fixHead codes))

end SequenceMatcher

/-- `difflib._format_range_unified`. -/
def formatRangeUnified (start stop : Nat) : String :=
  let beginning := start + 1
  let length := stop - start
  if length = 1 then toString beginning
  else if length = 0 then toString (beginning - 1) ++ "," ++ toString length
  else toString beginning ++ "," ++ toString length

/-- Python slice `l[i1:i2]` for `0 ≤ i1 ≤ i2` (indices are clamped). -/
def sliceList {β : Type} (l : List β) (i1 i2 : Nat) : List β :=
  (l.drop i1).take (i2 - i1)

/-- Per-opcode line rendering of `unified_diff` (with `lineterm = ""`,
lines keep their own terminators from `splitlines(keepends=True)`). -/
def renderOpcode (a b : List String) : Opcode → List String
  | (OpTag.equal, i1, i2, _, _) => (sliceList a i1 i2).map (fun line => " " ++ line)
  | (OpTag.replace, i1, i2, j1, j2) =>
      (sliceList a i1 i2).map (fun line => "-" ++ line) ++
      (sliceList b j1 j2).map (fun line => "+" ++ line)
  | (OpTag.delete, i1, i2, _, _) => (sliceList a i1 i2).map (fun line => "-" ++ line)
  | (OpTag.insert, _, _, j1, j2) => (sliceList b j1 j2).map (fun line => "+" ++ line)

/-- Rendering of one opcode group: the `@@` hunk header then the lines. -/
def renderGroup (a b : List String) (g : List Opcode) : List String :=
  let first := g.headD (OpTag.equal, 0, 0, 0, 0)
  let last := g.getLastD (OpTag.equal, 0, 0, 0, 0)
  ("@@ -" ++ formatRangeUnified first.2.1 last.2.2.1 ++ " +" ++
    formatRangeUnified first.2.2.2.1 last.2.2.2.2 ++ " @@") ::
  g.flatMap (renderOpcode a b)

/-- `difflib.unified_diff(a, b, fromfile="Previous Version",
tofile="Current Version", lineterm="")` as called by `compute_diff`: the
two file headers are emitted before the first group only. -/
def pyUnifiedDiff (a b : List String) : List String :=
  let groups := pyGroupedOpcodes a b
  if groups = [] then []
  else "--- Previous Version" :: "+++ Current Version" :: groups.flatMap (renderGroup a b)

/-! ### The differ (`app/scraper/differ.py`) -/

/-- `DiffSection` dataclass. -/
structure DiffSection where
  heading : String := ""
  old_text : String := ""
  new_text : String := ""
  change_type : String := "modified"
deriving DecidableEq, Repr

/-- `DiffResult` dataclass; `similarity_ratio` is kept as an exact
rational. -/
structure DiffResult where
  has_changes : Bool := false
  sections : List DiffSection := []
  words_added : Nat := 0
  words_removed : Nat := 0
  sections_changed : Nat := 0
  diff_html : String := ""
  similarity_ratio : ℚ := 1
deriving DecidableEq, Repr

/-- Regex `^\d+\.\s+\w` of `_looks_like_heading`: one or more (ASCII)
digits, a literal dot, one or more whitespace characters, then a word
character. -/
def numberedHeading (l : List Char) : Bool :=
  let ds := l.takeWhile Char.isDigit
  let rest := l.drop ds.length
  ¬ ds.isEmpty &&
  (match rest with
   | '.' :: r =>
      let sp := r.takeWhile isPySpace
      let r2 := r.drop sp.length
      ¬ sp.isEmpty &&
      (match r2 with
       | c :: _ => c.isAlphanum || c = '_'
       | [] => false)
   | _ => false)

/-- `_looks_like_heading` of `differ.py`. -/
def looksLikeHeading (text : String) : Bool :=
  if text.data.isEmpty then false
  else if pyIsUpper text.data && decide (text.data.length < 100) then true
  else if numberedHeading text.data && decide (text.data.length < 120) then true
  else if pyIsTitle text.data && decide ((pySplitWs text.data).length ≤ 8) then true
  else false

/-- `_make_section` of `differ.py` (Python truthiness of the two lists
selects the change type). -/
def makeSection (heading : String) (removed added : List String) : DiffSection :=
  if ¬ removed.isEmpty ∧ added.isEmpty then
    { heading := heading, old_text := String.intercalate "\n" removed,
      new_text := "", change_type := "removed" }
  else if ¬ added.isEmpty ∧ removed.isEmpty then
    { heading := heading, old_text := "",
      new_text := String.intercalate "\n" added, change_type := "added" }
  else
    { heading := heading, old_text := String.intercalate "\n" removed,
      new_text := String.intercalate "\n" added, change_type := "modified" }

/-- Loop state of `_parse_diff_sections`. -/
structure ParseState where
  sections : List DiffSection
  current_removed : List String
  current_added : List String
  current_heading : String

/-- One iteration of the `_parse_diff_sections` loop.  The branch order
matters: `---`/`+++` headers are skipped before the `-`/`+` tests. -/
def parseStep (st : ParseState) (line : String) : ParseState :=
  if line.startsWith "---" || line.startsWith "+++" then st
  else if line.startsWith "@@" then
    if ¬ st.current_removed.isEmpty ∨ ¬ st.current_added.isEmpty then
      { sections := st.sections ++
          [makeSection st.current_heading st.current_removed st.current_added],
        current_removed := [], current_added := [],
        current_heading := st.current_heading }
    else st
  else if line.startsWith "-" then
    let text := String.mk (pyStrip (line.data.drop 1))
    if ¬ text.data.isEmpty then
      { st with
        current_removed := st.current_removed ++ [text],
        current_heading :=
          if looksLikeHeading text then text else st.current_heading }
    else st
  else if line.startsWith "+" then
    let text := String.mk (pyStrip (line.data.drop 1))
    if ¬ text.data.isEmpty then
      { st with
        current_added := st.current_added ++ [text],
        current_heading :=
          if looksLikeHeading text then text else st.current_heading }
    else st
  else
    let st1 :=
      if ¬ st.current_removed.isEmpty ∨ ¬ st.current_added.isEmpty then
        { sections := st.sections ++
            [makeSection st.current_heading st.current_removed st.current_added],
          current_removed := ([] : List String), current_added := ([] : List String),
          current_heading := st.current_heading }
      else st
    let text := String.mk (pyStrip line.data)
    if looksLikeHeading text then { st1 with current_heading := text } else st1

/-- `_parse_diff_sections` of `differ.py` (its `old_lines`/`new_lines`
parameters are unused by the Python body and kept for fidelity). -/
def parseDiffSections (diff_lines old_lines new_lines : List String) : List DiffSection :=
  let st := diff_lines.foldl parseStep ⟨[], [], [], ""⟩
  if ¬ st.current_removed.isEmpty ∨ ¬ st.current_added.isEmpty then
    st.sections ++ [makeSection st.current_heading st.current_removed st.current_added]
  else st.sections

/-- `_escape` of `differ.py`: the four chained single-character
replacements commute into one character-level expansion because none of
the replacement texts contains a later pattern. -/
def escapeHtml (text : String) : String :=
  String.mk (text.data.flatMap (fun c =>
    if c = '&' then "&amp;".data
    else if c = '<' then "&lt;".data
    else if c = '>' then "&gt;".data
    else if c = '"' then "&quot;".data
    else [c]))

/-- Modelled from the spec: `difflib.HtmlDiff(wrapcolumn=80).make_table`
is Python-standard-library table rendering whose output the pipeline
treats as an opaque artifact ("renders a side-by-side ... visual diff
artifact truncated to the first 500 lines per side"); no claim depends on
its markup, so it is modelled as a total abstract rendering of the two
truncated line lists. -/
def htmlDiffMakeTable (old500 new500 : List String) : String :=
  "side-by-side-table:" ++ String.intercalate "" old500 ++ "=>" ++
    String.intercalate "" new500

/-- `_generate_html_diff` of `differ.py`: the `try` branch renders the
table on the first 500 lines per side (the `except` fallback is
unreachable for a total rendering). -/
def generateHtmlDiff (old_lines new_lines : List String) : String :=
  htmlDiffMakeTable (old_lines.take 500) (new_lines.take 500)

/-- `compute_diff` of `app/scraper/differ.py`. -/
def compute_diff (old_text new_text : String) : DiffResult :=
  if old_text = new_text then { has_changes := false, similarity_ratio := 1 }
  else
    let old_lines := pySplitlines old_text
    let new_lines := pySplitlines new_text
    let ratio := pyRatio old_text.data new_text.data
    let diff_lines := pyUnifiedDiff old_lines new_lines
    if diff_lines.isEmpty then { has_changes := false, similarity_ratio := ratio }
    else
      let sections := parseDiffSections diff_lines old_lines new_lines
      let old_words := ((pySplitWs old_text.data).map String.mk).toFinset
      let new_words := ((pySplitWs new_text.data).map String.mk).toFinset
      { has_changes := true,
        sections := sections,
        words_added := (new_words \ old_words).card,
        words_removed := (old_words \ new_words).card,
        sections_changed := sections.length,
        diff_html := generateHtmlDiff old_lines new_lines,
        similarity_ratio := ratio }

/-! ### Enumerations (`app/models.py`) -/

/-- `Severity(str, Enum)`. -/
inductive Severity where
  | critical
  | major
  | minor
  | patch
deriving DecidableEq, Repr

/-- `.value` of the `Severity` string enum. -/
def Severity.value : Severity → String
  | .critical => "critical"
  | .major => "major"
  | .minor => "minor"
  | .patch => "patch"

/-- `ChangeType(str, Enum)`. -/
inductive ChangeType where
  | tos_update
  | privacy_update
  | api_change
  | pricing_change
  | data_policy
deriving DecidableEq, Repr

/-- `.value` of the `ChangeType` string enum. -/
def ChangeType.value : ChangeType → String
  | .tos_update => "tos_update"
  | .privacy_update => "privacy_update"
  | .api_change => "api_change"
  | .pricing_change => "pricing_change"
  | .data_policy => "data_policy"

/-- `AlertChannel(str, Enum)`. -/
inductive AlertChannel where
  | email
  | webhook
  | slack
deriving DecidableEq, Repr

/-- `AlertStatus(str, Enum)`. -/
inductive AlertStatus where
  | sent
  | failed
  | pending
deriving DecidableEq, Repr

/-- Python truthiness of an optional string (`None` and `""` are falsy). -/
def pyTruthy : Option String → Bool
  | none => false
  | some s => ¬ s.isEmpty

/-! ### Tier limits (`app/tiers.py`) -/

/-- `TierLimits` dataclass. -/
structure TierLimits where
  max_services : Nat
  history_days : Nat
  realtime_alerts : Bool
  can_view_diff : Bool
  can_export : Bool
  can_api : Bool
  can_webhook : Bool
  can_invite_team : Bool
  max_seats : Nat
  digest_frequency : String
deriving DecidableEq, Repr

/-- The `Plan.FREE` row of `PLAN_LIMITS`. -/
def FREE_LIMITS : TierLimits :=
  { max_services := 2, history_days := 3, realtime_alerts := false,
    can_view_diff := false, can_export := false, can_api := false,
    can_webhook := false, can_invite_team := false, max_seats := 1,
    digest_frequency := "weekly" }

/-- The `Plan.PRO` row of `PLAN_LIMITS`. -/
def PRO_LIMITS : TierLimits :=
  { max_services := 15, history_days := 365, realtime_alerts := true,
    can_view_diff := true, can_export := true, can_api := true,
    can_webhook := false, can_invite_team := false, max_seats := 1,
    digest_frequency := "realtime" }

/-- The `Plan.BUSINESS` row of `PLAN_LIMITS`. -/
def BUSINESS_LIMITS : TierLimits :=
  { max_services := 999, history_days := 365 * 3, realtime_alerts := true,
    can_view_diff := true, can_export := true, can_api := true,
    can_webhook := true, can_invite_team := true, max_seats := 5,
    digest_frequency := "realtime" }

/-- `PLAN_LIMITS`, keyed by the `Plan` string-enum values.  `Plan` is a
`str` enum, so a user's plan is modelled by its string value, which also
represents account rows carrying a value outside the enum. -/
def PLAN_LIMITS : List (String × TierLimits) :=
  [("free", FREE_LIMITS), ("pro", PRO_LIMITS), ("business", BUSINESS_LIMITS)]

/-- `get_limits` of `app/tiers.py`: `PLAN_LIMITS.get(plan, PLAN_LIMITS[Plan.FREE])`. -/
def get_limits (plan : String) : TierLimits :=
  (PLAN_LIMITS.lookup plan).getD FREE_LIMITS

/-! ### The fetcher (`app/scraper/fetcher.py`) -/

/-- Outcome of one HTTP GET attempt as seen through httpx: a successful
response body, `raise_for_status` raising `HTTPStatusError` with a status
code, an httpx `TimeoutException`/`ConnectError`, or any other exception
(caught by the final `except Exception` handler). -/
inductive NetResponse where
  | success (body : String)
  | httpStatus (code : Nat)
  | timeoutExc (msg : String)
  | connectExc (msg : String)
  | otherExc (msg : String)
deriving DecidableEq, Repr

/-- The dict returned by `fetch_page`. -/
structure PageResult where
  url : String
  content : String
  content_hash : String
  word_count : Nat
  status : String
  error : Option String
deriving DecidableEq, Repr

/-- A `fetch_page` run: the returned dict plus the `asyncio.sleep` backoff
trace. -/
structure FetchOut where
  result : PageResult
  waits : List Nat
deriving DecidableEq, Repr

/-- External collaborators of `fetch_page`: the network (outcome per
attempt index), the BeautifulSoup-based `_extract_text` (an HTML→text
function) and `hashlib.sha256(...).hexdigest()` (a string-valued hash). -/
structure FetchEnv where
  net : Nat → NetResponse
  extractText : String → String
  sha256hex : String → String

/-- The error-shaped dict of `fetch_page`. -/
def errorResult (url msg : String) : PageResult :=
  { url := url, content := "", content_hash := "", word_count := 0,
    status := "error", error := some msg }

/-- Loop of `fetch_page` over `attempt in range(retries)`, with
`remaining = retries - attempt` (so `attempt < retries - 1` is
`remaining > 1`); falling out of the loop yields the
"Max retries exceeded" result. -/
def fetchLoop (env : FetchEnv) (url : String) :
    Nat → Nat → List Nat → FetchOut
  | 0, _, ws => ⟨errorResult url "Max retries exceeded", ws⟩
  | rem + 1, attempt, ws =>
    match env.net attempt with
    | NetResponse.success body =>
        let content := env.extractText body
        ⟨{ url := url, content := content,
           content_hash := env.sha256hex content,
           word_count := (pySplitWs content.data).length,
           status := "ok", error := none }, ws⟩
    | NetResponse.httpStatus code =>
        if code = 429 then
          fetchLoop env url rem (attempt + 1) (ws ++ [(attempt + 1) * 10])
        else ⟨errorResult url ("HTTP " ++ toString code), ws⟩
    | NetResponse.timeoutExc msg =>
        if rem + 1 > 1 then
          fetchLoop env url rem (attempt + 1) (ws ++ [(attempt + 1) * 5])
        else ⟨errorResult url msg, ws⟩
    | NetResponse.connectExc msg =>
        if rem + 1 > 1 then
          fetchLoop env url rem (attempt + 1) (ws ++ [(attempt + 1) * 5])
        else ⟨errorResult url msg, ws⟩
    | NetResponse.otherExc msg => ⟨errorResult url msg, ws⟩

/-- `fetch_page(url, retries=3)` of `app/scraper/fetcher.py`. -/
def fetch_page (env : FetchEnv) (url : String) (retries : Nat := 3) : FetchOut :=
  fetchLoop env url retries 0 []

/-! ### The summarizer (`app/scraper/summarizer.py`) -/

/-- Raw JSON-object shape of an LLM response (absent keys are `none`;
responses whose fields have non-string values raise inside
`_normalize_result` and are covered by the `Except.error` call outcome). -/
structure LLMRaw where
  title : Option String := none
  summary : Option String := none
  severity : Option String := none
deriving DecidableEq, Repr

/-- Provider configuration (`settings.LLM_PROVIDER` and API keys) and the
outcome of one provider call (`_summarize_anthropic`/`_summarize_openai`
up to JSON parsing): either a parsed object or any raised exception
(HTTP error status, timeout, malformed JSON). -/
structure SummarizerEnv where
  llm_provider : String
  anthropic_api_key : Option String
  openai_api_key : Option String
  call : String → Except String LLMRaw

/-- The dict returned by `summarize_change`. -/
structure SummaryResult where
  title : String
  summary : String
  severity : Severity
deriving DecidableEq, Repr

/-- `_normalize_result` of `summarizer.py`: defaulted fields, title
truncated to 500 code points, severity lower-cased and mapped with
`Severity.MINOR` as the lookup default. -/
def normalizeResult (r : LLMRaw) : SummaryResult :=
  { title := String.mk ((r.title.getD "Policy change detected").data.take 500),
    summary := r.summary.getD "A change was detected in the policy document.",
    severity :=
      let s := pyLower (r.severity.getD "minor").data
      if s = "critical".data then Severity.critical
      else if s = "major".data then Severity.major
      else if s = "minor".data then Severity.minor
      else if s = "patch".data then Severity.patch
      else Severity.minor }

/-- `_fallback_summary` of `summarizer.py`. -/
def fallbackSummary (service_name : String) : SummaryResult :=
  { title := service_name ++ " policy updated",
    summary := "A change was detected in " ++ service_name ++
      "'s policy. Review the diff for details.",
    severity := Severity.minor }

/-- Prompt assembly of `summarize_change` (sections limited to the first
10, section texts truncated to 500 code points, full texts to 1500; a
`None` sections argument behaves like the empty list, both being falsy). -/
def buildUserMsg (service_name old_text new_text : String)
    (diff_sections : List DiffSection) : String :=
  let base := "Service: " ++ service_name ++ "\n"
  if ¬ diff_sections.isEmpty then
    base ++ "Changed sections:\n" ++
    String.intercalate "" ((diff_sections.take 10).map (fun s =>
      (if ¬ s.old_text.isEmpty then
        "REMOVED:\n" ++ String.mk (s.old_text.data.take 500) ++ "\n" else "") ++
      (if ¬ s.new_text.isEmpty then
        "ADDED:\n" ++ String.mk (s.new_text.data.take 500) ++ "\n" else "") ++
      "---\n"))
  else
    base ++ "Previous version (excerpt):\n" ++ String.mk (old_text.data.take 1500) ++
      "\n\n" ++ "New version (excerpt):\n" ++ String.mk (new_text.data.take 1500) ++ "\n"

/-- `summarize_change` of `app/scraper/summarizer.py`: provider selection
by configuration truthiness; any provider-call failure (the `except`
branch) or the absence of a configured provider yields the fallback. -/
def summarize_change (env : SummarizerEnv) (service_name old_text new_text : String)
    (diff_sections : List DiffSection) : SummaryResult :=
  let user_msg := buildUserMsg service_name old_text new_text diff_sections
  if env.llm_provider = "anthropic" ∧ pyTruthy env.anthropic_api_key then
    match env.call user_msg with
    | Except.ok r => normalizeResult r
    | Except.error _ => fallbackSummary service_name
  else if pyTruthy env.openai_api_key then
    match env.call user_msg with
    | Except.ok r => normalizeResult r
    | Except.error _ => fallbackSummary service_name
  else fallbackSummary service_name

/-! ### Data-model slice (`app/models.py`)

Rows are records in lists; UUID primary keys are modelled by `Nat`
identifiers allocated from a per-database counter, and timestamp columns
with `server_default=func.now()` by a logical clock that yields a fresh,
strictly increasing value per insert. -/

/-- Slice of `User` read by the dispatcher. -/
structure UserRec where
  id : Nat
  email : String
  plan : String
deriving DecidableEq, Repr

/-- Slice of `Service` read by the orchestrator and dispatcher. -/
structure ServiceRec where
  id : Nat
  name : String
  slug : String
  tos_url : Option String
  privacy_url : Option String
  is_active : Bool
  last_checked_at : Option Nat
deriving DecidableEq, Repr

/-- `Snapshot` rows. -/
structure SnapshotRec where
  id : Nat
  service_id : Nat
  url : String
  content_hash : String
  content : String
  word_count : Nat
  fetched_at : Nat
deriving DecidableEq, Repr

/-- `Change` rows. -/
structure ChangeRec where
  id : Nat
  service_id : Nat
  snapshot_old_id : Nat
  snapshot_new_id : Nat
  change_type : ChangeType
  severity : Severity
  title : String
  summary : String
  diff_html : String
  sections_changed : Nat
  words_added : Nat
  words_removed : Nat
  detected_at : Nat
deriving DecidableEq, Repr

/-- `Subscription` rows. -/
structure SubscriptionRec where
  user_id : Nat
  service_id : Nat
  notify_email : Bool
  notify_webhook : Bool
  webhook_url : Option String
deriving DecidableEq, Repr

/-- `Alert` rows (an alert row is created pending and transitioned once to
its terminal status within the same dispatch pass; rows here carry their
final state). -/
structure AlertRec where
  change_id : Nat
  user_id : Nat
  channel : AlertChannel
  status : AlertStatus
  error_message : Option String
  sent_at : Option Nat
deriving DecidableEq, Repr

/-- The database state. -/
structure DB where
  users : List UserRec
  services : List ServiceRec
  snapshots : List SnapshotRec
  changes : List ChangeRec
  subscriptions : List SubscriptionRec
  alerts : List AlertRec
  nextId : Nat
deriving DecidableEq, Repr

/-! ### The alert dispatcher (`app/services/alerts.py`) -/

/-- Delivery collaborators of the dispatcher: the outcome of
`_send_email_alert` / `_send_webhook_alert` for a (user id, change id)
pair — `ok` covers both a delivered request and the silent return when
`RESEND_API_KEY` is unset; `error` is any raised exception, recorded on
the alert row.  `now` models `datetime.now(timezone.utc)` at send time. -/
structure AlertEnv where
  emailSend : Nat → Nat → Except String Unit
  webhookSend : Nat → Nat → Except String Unit
  now : Nat

/-- Per-subscription body of the dispatcher loop: the alert rows appended
for this subscription.  A missing user row is skipped; a tier without
real-time alerting is skipped entirely; e-mail is attempted when
requested; webhook is attempted only when requested, a webhook URL is set
and non-empty (Python truthiness), and the tier permits the webhook
channel. -/
def alertsForSub (env : AlertEnv) (db : DB) (change : ChangeRec) (sub : SubscriptionRec) :
    List AlertRec :=
  match db.users.find? (fun u => u.id == sub.user_id) with
  | none => []
  | some user =>
    let limits := get_limits user.plan
    if ¬ limits.realtime_alerts then []
    else
      (if sub.notify_email then
        [match env.emailSend user.id change.id with
         | Except.ok _ =>
           { change_id := change.id, user_id := sub.user_id,
             channel := AlertChannel.email, status := AlertStatus.sent,
             error_message := none, sent_at := some env.now }
         | Except.error e =>
           { change_id := change.id, user_id := sub.user_id,
             channel := AlertChannel.email, status := AlertStatus.failed,
             error_message := some e, sent_at := none }]
       else []) ++
      (if sub.notify_webhook ∧ pyTruthy sub.webhook_url ∧ limits.can_webhook then
        [match env.webhookSend user.id change.id with
         | Except.ok _ =>
           { change_id := change.id, user_id := sub.user_id,
             channel := AlertChannel.webhook, status := AlertStatus.sent,
             error_message := none, sent_at := some env.now }
         | Except.error e =>
           { change_id := change.id, user_id := sub.user_id,
             channel := AlertChannel.webhook, status := AlertStatus.failed,
             error_message := some e, sent_at := none }]
       else [])

/-- `send_alerts_for_changes` of `app/services/alerts.py`. -/
def send_alerts_for_changes (env : AlertEnv) (changes : List ChangeRec) (db : DB) : DB :=
  changes.foldl (fun db change =>
    match db.services.find? (fun s => s.id == change.service_id) with
    | none => db
    | some _service =>
      let subscribers := db.subscriptions.filter
        (fun sub => sub.service_id == change.service_id)
      subscribers.foldl (fun db sub =>
        { db with alerts := db.alerts ++ alertsForSub env db change sub }) db) db

/-! ### The sales bridge (`app/services/sales_bridge.py`) -/

/-- One entry of the `product_changes.json` feed (the Python dict key
`"type"` is the field `change_type`; ISO-formatted datetimes are the
underlying clock values). -/
structure FeedEntry where
  id : String
  service : String
  change_type : String
  summary : String
  title : String
  severity : String
  date : Nat
  sections_changed : Nat
  words_added : Nat
  words_removed : Nat
  url : String
  pushed_at : Nat
deriving DecidableEq, Repr

/-- Slice of `app/config.py` settings read by the embedded code. -/
structure Settings where
  app_url : String
  sales_agent_enabled : Bool
deriving DecidableEq, Repr

/-- File-system collaborator of `push_changes`: whether
`SALES_AGENT_DATA_DIR` is configured, whether the directory exists, what
reading the existing feed file yields (`none` = file absent;
`some none` = present but unreadable or unparsable, which the code
swallows; `some (some l)` = parsed entries), and whether the final
`write_text` succeeds — an `OSError` there is NOT caught by
`push_changes`. -/
structure SalesEnv where
  dataDirSet : Bool
  dirExists : Bool
  readFeed : Option (Option (List FeedEntry))
  writeOk : Bool
  now : Nat

/-- `push_changes` of `app/services/sales_bridge.py`: returns the feed
contents written (`none` when the bridge was skipped before reading the
file), or the propagated exception from the final `write_text`. -/
def push_changes (st : Settings) (env : SalesEnv) (db : DB) (changes : List ChangeRec) :
    Except String (Option (List FeedEntry)) :=
  if ¬ env.dataDirSet then Except.ok none
  else if ¬ env.dirExists then Except.ok none
  else
    let existing : List FeedEntry :=
      match env.readFeed with
      | none => []
      | some none => []
      | some (some l) => l
    let entries := changes.filterMap (fun change =>
      match db.services.find? (fun s => s.id == change.service_id) with
      | none => none
      | some service => some
        { id := toString change.id,
          service := service.name,
          change_type := change.change_type.value,
          summary := change.summary,
          title := change.title,
          severity := change.severity.value,
          date := change.detected_at,
          sections_changed := change.sections_changed,
          words_added := change.words_added,
          words_removed := change.words_removed,
          url := st.app_url ++ "/changes/" ++ toString change.id,
          pushed_at := env.now })
    let final := (existing ++ entries).drop ((existing ++ entries).length - 200)
    if env.writeOk then Except.ok (some final)
    else Except.error "OSError: feed write failed"

/-! ### The orchestrator (`app/scraper/scheduler.py`) -/

/-- External collaborators of one scan: `fetch` gives the result dict of
`fetch_page(url)` per URL (the fetcher's own retry loop is specified
separately on `fetch_page`); the summarizer, alert and sales environments
drive the corresponding phases; `settings` is the configuration slice. -/
structure ScanEnv where
  fetch : String → PageResult
  llm : SummarizerEnv
  alertEnv : AlertEnv
  sales : SalesEnv
  settings : Settings

/-- Scan-side state: the database, the logical insert clock, and an
instrumentation counter of `summarize_change` invocations. -/
structure ScanState where
  db : DB
  clock : Nat
  classifierCalls : Nat

/-- `_get_latest_snapshot` of `scheduler.py`: `ORDER BY fetched_at DESC
LIMIT 1` over the rows of the (service, url) pair — the first row
attaining the maximal `fetched_at`. -/
def get_latest_snapshot (db : DB) (service_id : Nat) (url : String) : Option SnapshotRec :=
  (db.snapshots.filter (fun s => s.service_id == service_id && s.url == url)).foldl
    (fun best s =>
      match best with
      | none => some s
      | some b => if s.fetched_at > b.fetched_at then some s else some b) none

/-- Per-URL loop body of `check_service`: fetch, persist the new snapshot
(always, also on first observation), short-circuit on an equal
fingerprint, diff, apply the triviality gate (`similarity_ratio > 0.995`,
an exact-rational comparison), classify and persist a `Change`.
`classifierCalls` counts the `summarize_change` invocations. -/
def check_url (env : ScanEnv) (svc : ServiceRec) (url : String) (ctype : ChangeType)
    (s : ScanState) : ScanState × List ChangeRec :=
  let result := env.fetch url
  if result.status ≠ "ok" then (s, [])
  else
    let prev := get_latest_snapshot s.db svc.id url
    let snap : SnapshotRec :=
      { id := s.db.nextId, service_id := svc.id, url := url,
        content_hash := result.content_hash, content := result.content,
        word_count := result.word_count, fetched_at := s.clock }
    let s1 : ScanState :=
      { s with
        db := { s.db with
          snapshots := s.db.snapshots ++ [snap],
          nextId := s.db.nextId + 1 },
        clock := s.clock + 1 }
    match prev with
    | none => (s1, [])
    | some p =>
      if p.content_hash = result.content_hash then (s1, [])
      else
        let diff := compute_diff p.content result.content
        if ¬ diff.has_changes then (s1, [])
        else if diff.similarity_ratio > mkRat 995 1000 then (s1, [])
        else
          let summary := summarize_change env.llm svc.name p.content result.content
            diff.sections
          let change : ChangeRec :=
            { id := s1.db.nextId, service_id := svc.id,
              snapshot_old_id := p.id, snapshot_new_id := snap.id,
              change_type := ctype, severity := summary.severity,
              title := summary.title, summary := summary.summary,
              diff_html := diff.diff_html, sections_changed := diff.sections_changed,
              words_added := diff.words_added, words_removed := diff.words_removed,
              detected_at := s1.clock }
          ({ s1 with
              db := { s1.db with
                changes := s1.db.changes ++ [change],
                nextId := s1.db.nextId + 1 },
              clock := s1.clock + 1,
              classifierCalls := s1.classifierCalls + 1 }, [change])

/-- `check_service` of `scheduler.py`: iterate the configured document
URLs (terms first, then privacy), then unconditionally update the
service's last-checked timestamp.  The per-URL `try/except` contains
per-document failures; all embedded collaborators are total, so the
`except` path carries no behaviour here. -/
def check_service (env : ScanEnv) (svc : ServiceRec) (s : ScanState) :
    ScanState × List ChangeRec :=
  let urls : List (String × ChangeType) :=
    (match svc.tos_url with
     | some u => [(u, ChangeType.tos_update)]
     | none => []) ++
    (match svc.privacy_url with
     | some u => [(u, ChangeType.privacy_update)]
     | none => [])
  let r := urls.foldl (fun (acc : ScanState × List ChangeRec) p =>
    let r' := check_url env svc p.1 p.2 acc.1
    (r'.1, acc.2 ++ r'.2)) (s, [])
  let s2 : ScanState :=
    { r.1 with
      db := { r.1.db with
        services := r.1.db.services.map (fun t =>
          if t.id = svc.id then { t with last_checked_at := some r.1.clock } else t) },
      clock := r.1.clock + 1 }
  (s2, r.2)

/-- Scan loop of `run_full_scan`: enumerate active services once, then
check each in its own session scope (all embedded steps are total, so the
per-service `except` path carries no behaviour), accumulating the newly
created changes. -/
def scanPhase (env : ScanEnv) (s0 : ScanState) : ScanState × List ChangeRec :=
  (s0.db.services.filter (fun s => s.is_active)).foldl
    (fun acc svc =>
      let r := check_service env svc acc.1
      (r.1, acc.2 ++ r.2)) (s0, [])

/-- `run_full_scan` of `scheduler.py`: scan, then — only when changes were
detected — dispatch alerts and, when `SALES_AGENT_ENABLED`, push the
change feed, whose failure propagates out of `run_full_scan` uncaught.
On success the returned triple carries the final state, the full list of
newly created changes (the function's return value), and the feed written
by the bridge. -/
def run_full_scan (env : ScanEnv) (s0 : ScanState) :
    Except String (ScanState × List ChangeRec × Option (List FeedEntry)) :=
  let r := scanPhase env s0
  if r.2.isEmpty then Except.ok (r.1, r.2, none)
  else
    let s2 : ScanState := { r.1 with db := send_alerts_for_changes env.alertEnv r.2 r.1.db }
    if env.settings.sales_agent_enabled then
      match push_changes env.settings env.sales s2.db r.2 with
      | Except.ok feed => Except.ok (s2, r.2, feed)
      | Except.error e => Except.error e
    else Except.ok (s2, r.2, none)

/-! ### Dispatcher lemmas -/

theorem alertsForSub_congr (env : AlertEnv) (db db' : DB) (c : ChangeRec)
    (sub : SubscriptionRec) (h : db'.users = db.users) :
    alertsForSub env db' c sub = alertsForSub env db c sub := by
  unfold alertsForSub
  rw [h]

theorem innerFold_spec (env : AlertEnv) (c : ChangeRec) :
    ∀ (subs : List SubscriptionRec) (db : DB),
      (subs.foldl (fun db sub =>
        { db with alerts := db.alerts ++ alertsForSub env db c sub }) db) =
      { db with alerts := db.alerts ++
          subs.flatMap (fun sub => alertsForSub env db c sub) } := by
  intro subs
  induction subs with
  | nil => intro db; simp
  | cons sub rest ih =>
    intro db
    simp only [List.foldl_cons]
    rw [ih]
    have hcongr : ∀ s', alertsForSub env
        { db with alerts := db.alerts ++ alertsForSub env db c sub } c s' =
        alertsForSub env db c s' := by
      intro s'
      exact alertsForSub_congr env db _ c s' rfl
    simp only [hcongr]
    simp [List.append_assoc]

/-- Characterization of the dispatcher: it only appends alert rows, and
the appended rows are exactly those produced per (change, subscription)
pair with a resolvable service. -/
theorem send_alerts_characterization (env : AlertEnv) (changes : List ChangeRec) (db : DB) :
    send_alerts_for_changes env changes db =
      { db with alerts := db.alerts ++ changes.flatMap (fun c =>
          match db.services.find? (fun s => s.id == c.service_id) with
          | none => []
          | some _ => (db.subscriptions.filter
              (fun sub => sub.service_id == c.service_id)).flatMap
              (fun sub => alertsForSub env db c sub)) } := by
  induction changes generalizing db with
  | nil => simp [send_alerts_for_changes]
  | cons c rest ih =>
    show (List.foldl _ _ (c :: rest)) = _
    simp only [List.foldl_cons]
    rcases hfind : db.services.find? (fun s => s.id == c.service_id) with _ | svc
    · rw [hfind]
      have := ih db
      unfold send_alerts_for_changes at this
      rw [this]
      simp [hfind]
    · rw [hfind]
      rw [innerFold_spec]
      set extra := (db.subscriptions.filter
          (fun sub => sub.service_id == c.service_id)).flatMap
        (fun sub => alertsForSub env db c sub) with hextra
      set db1 : DB := { db with alerts := db.alerts ++ extra } with hdb1
      have := ih db1
      unfold send_alerts_for_changes at this
      rw [this]
      have husers : db1.users = db.users := rfl
      have hserv : db1.services = db.services := rfl
      have hsubs : db1.subscriptions = db.subscriptions := rfl
      have hcongr : ∀ c' s', alertsForSub env db1 c' s' = alertsForSub env db c' s' :=
        fun c' s' => alertsForSub_congr env db db1 c' s' husers
      simp only [hserv, hsubs, hcongr, hdb1]
      simp [hfind, List.append_assoc]

theorem alertsForSub_user (env : AlertEnv) (db : DB) (c : ChangeRec)
    (sub : SubscriptionRec) :
    ∀ a ∈ alertsForSub env db c sub, a.user_id = sub.user_id ∧ a.change_id = c.id := by
  intro a ha
  unfold alertsForSub at ha
  rcases hfind : db.users.find? (fun u => u.id == sub.user_id) with _ | u
  · rw [hfind] at ha; simp at ha
  · rw [hfind] at ha
    by_cases hreal : (get_limits u.plan).realtime_alerts
    · simp only [hreal, not_true, if_neg, ite_false, not_false_iff, if_pos] at ha
      rcases List.mem_append.mp ha with h1 | h1
      · split at h1
        · split at h1 <;> simp_all
        · simp at h1
      · split at h1
        · split at h1 <;> simp_all
        · simp at h1
    · simp [hreal] at ha

theorem alertsForSub_skip (env : AlertEnv) (db : DB) (c : ChangeRec)
    (sub : SubscriptionRec) (u : UserRec)
    (hfind : db.users.find? (fun v => v.id == sub.user_id) = some u)
    (hreal : ¬ (get_limits u.plan).realtime_alerts) :
    alertsForSub env db c sub = [] := by
  unfold alertsForSub
  rw [hfind]
  simp [hreal]

theorem alertsForSub_no_webhook (env : AlertEnv) (db : DB) (c : ChangeRec)
    (sub : SubscriptionRec) (u : UserRec)
    (hfind : db.users.find? (fun v => v.id == sub.user_id) = some u)
    (hweb : ¬ (get_limits u.plan).can_webhook) :
    ∀ a ∈ alertsForSub env db c sub, a.channel ≠ AlertChannel.webhook := by
  intro a ha
  unfold alertsForSub at ha
  rw [hfind] at ha
  by_cases hreal : (get_limits u.plan).realtime_alerts
  · simp only [hreal, not_true, ite_false, if_pos] at ha
    rcases List.mem_append.mp ha with h1 | h1
    · split at h1
      · split at h1 <;> simp_all
      · simp at h1
    · rw [if_neg (by simp [hweb])] at h1
      simp at h1
  · simp [hreal] at ha

theorem alertsForSub_email_created (env : AlertEnv) (db : DB) (c : ChangeRec)
    (sub : SubscriptionRec) (u : UserRec)
    (hfind : db.users.find? (fun v => v.id == sub.user_id) = some u)
    (hreal : (get_limits u.plan).realtime_alerts)
    (hmail : sub.notify_email = true) :
    ∃ a ∈ alertsForSub env db c sub,
      a.channel = AlertChannel.email ∧ a.user_id = sub.user_id ∧ a.change_id = c.id := by
  unfold alertsForSub
  rw [hfind]
  dsimp only
  rw [if_neg (by simp [hreal]), if_pos hmail]
  rcases hsend : env.emailSend u.id c.id with _ | e
  · exact ⟨_, List.mem_append.mpr (Or.inl (List.mem_singleton.mpr rfl)), rfl, rfl, rfl⟩
  · exact ⟨_, List.mem_append.mpr (Or.inl (List.mem_singleton.mpr rfl)), rfl, rfl, rfl⟩

theorem dispatcher_skips_user (env : AlertEnv) (changes : List ChangeRec) (db : DB)
    (u : UserRec) (hu : db.users.find? (fun v => v.id == u.id) = some u)
    (hreal : ¬ (get_limits u.plan).realtime_alerts) :
    ∀ a ∈ (send_alerts_for_changes env changes db).alerts,
      a ∈ db.alerts ∨ a.user_id ≠ u.id := by
  intro a ha
  rw [send_alerts_characterization] at ha
  rcases List.mem_append.mp ha with h1 | h1
  · exact Or.inl h1
  · right
    obtain ⟨c, _hc, hmem⟩ := List.mem_flatMap.mp h1
    rcases hfind : db.services.find? (fun s => s.id == c.service_id) with _ | svc
    · rw [hfind] at hmem; simp at hmem
    · rw [hfind] at hmem
      obtain ⟨sub, hsub, hasub⟩ := List.mem_flatMap.mp hmem
      intro heq
      have huser := (alertsForSub_user env db c sub a hasub).1
      have hsubu : sub.user_id = u.id := by rw [← huser, heq]
      have : db.users.find? (fun v => v.id == sub.user_id) = some u := by
        rw [hsubu]; exact hu
      rw [alertsForSub_skip env db c sub u this hreal] at hasub
      simp at hasub

theorem dispatcher_no_webhook_for_user (env : AlertEnv) (changes : List ChangeRec)
    (db : DB) (u : UserRec) (hu : db.users.find? (fun v => v.id == u.id) = some u)
    (hweb : ¬ (get_limits u.plan).can_webhook) :
    ∀ a ∈ (send_alerts_for_changes env changes db).alerts,
      a ∈ db.alerts ∨ a.user_id ≠ u.id ∨ a.channel ≠ AlertChannel.webhook := by
  intro a ha
  rw [send_alerts_characterization] at ha
  rcases List.mem_append.mp ha with h1 | h1
  · exact Or.inl h1
  · obtain ⟨c, _hc, hmem⟩ := List.mem_flatMap.mp h1
    rcases hfind : db.services.find? (fun s => s.id == c.service_id) with _ | svc
    · rw [hfind] at hmem; simp at hmem
    · rw [hfind] at hmem
      obtain ⟨sub, hsub, hasub⟩ := List.mem_flatMap.mp hmem
      by_cases heq : a.user_id = u.id
      · right; right
        have huser := (alertsForSub_user env db c sub a hasub).1
        have hsubu : sub.user_id = u.id := by rw [← huser, heq]
        have hfu : db.users.find? (fun v => v.id == sub.user_id) = some u := by
          rw [hsubu]; exact hu
        exact alertsForSub_no_webhook env db c sub u hfu hweb a hasub
      · exact Or.inr (Or.inl heq)

theorem dispatcher_email_delivered (env : AlertEnv) (changes : List ChangeRec)
    (db : DB) (u : UserRec) (hu : db.users.find? (fun v => v.id == u.id) = some u)
    (hreal : (get_limits u.plan).realtime_alerts) :
    ∀ c ∈ changes, ∀ sub ∈ db.subscriptions,
      sub.service_id = c.service_id → sub.user_id = u.id → sub.notify_email = true →
      (db.services.find? (fun s => s.id == c.service_id)).isSome →
      ∃ a ∈ (send_alerts_for_changes env changes db).alerts,
        a.user_id = u.id ∧ a.change_id = c.id ∧ a.channel = AlertChannel.email := by
  intro c hc sub hsub hsvc huid hmail hsome
  have hfu : db.users.find? (fun v => v.id == sub.user_id) = some u := by
    rw [huid]; exact hu
  obtain ⟨a, hamem, hach, hauid, hacid⟩ :=
    alertsForSub_email_created env db c sub u hfu hreal hmail
  refine ⟨a, ?_, by rw [hauid, huid], hacid, hach⟩
  rw [send_alerts_characterization]
  simp only [List.mem_append]
  right
  rw [List.mem_flatMap]
  refine ⟨c, hc, ?_⟩
  rcases hfind : db.services.find? (fun s => s.id == c.service_id) with _ | svc
  · rw [hfind] at hsome; simp at hsome
  · rw [hfind]
    rw [List.mem_flatMap]
    refine ⟨sub, ?_, hamem⟩
    rw [List.mem_filter]
    exact ⟨hsub, by simp [hsvc]⟩

/-- C3: during alert dispatch for new Changes, a subscriber whose tier has
no real-time alerting gets zero alert attempts in the pass; a subscriber
whose tier disallows the webhook channel never gets a webhook attempt
(even with a webhook configured and requested), while an e-mail attempt is
still created when e-mail is requested and the tier has real-time
alerting. -/
theorem alert_dispatch_tier_gating (env : AlertEnv) (changes : List ChangeRec) (db : DB)
    (u : UserRec) (hu : db.users.find? (fun v => v.id == u.id) = some u) :
    (¬ (get_limits u.plan).realtime_alerts →
      ∀ a ∈ (send_alerts_for_changes env changes db).alerts,
        a ∈ db.alerts ∨ a.user_id ≠ u.id) ∧
    (¬ (get_limits u.plan).can_webhook →
      ∀ a ∈ (send_alerts_for_changes env changes db).alerts,
        a ∈ db.alerts ∨ a.user_id ≠ u.id ∨ a.channel ≠ AlertChannel.webhook) ∧
    ((get_limits u.plan).realtime_alerts →
      ∀ c ∈ changes, ∀ sub ∈ db.subscriptions,
        sub.service_id = c.service_id → sub.user_id = u.id → sub.notify_email = true →
        (db.services.find? (fun s => s.id == c.service_id)).isSome →
        ∃ a ∈ (send_alerts_for_changes env changes db).alerts,
          a.user_id = u.id ∧ a.change_id = c.id ∧ a.channel = AlertChannel.email) :=
  ⟨fun hreal => dispatcher_skips_user env changes db u hu hreal,
   fun hweb => dispatcher_no_webhook_for_user env changes db u hu hweb,
   fun hreal => dispatcher_email_delivered env changes db u hu hreal⟩

/-- Concrete dispatch scenario: one PRO subscriber (real-time e-mail, no
webhook channel) who requested both channels on a service with one new
change. -/
def uW : UserRec := { id := 1, email := "pro@example.com", plan := "pro" }

def cW : ChangeRec :=
  { id := 9, service_id := 5, snapshot_old_id := 1, snapshot_new_id := 2,
    change_type := ChangeType.tos_update, severity := Severity.minor,
    title := "t", summary := "s", diff_html := "", sections_changed := 1,
    words_added := 1, words_removed := 1, detected_at := 3 }

def dbW : DB :=
  { users := [uW],
    services := [{ id := 5, name := "SvcX", slug := "svcx", tos_url := some "http://x/t",
                   privacy_url := none, is_active := true, last_checked_at := none }],
    snapshots := [], changes := [cW],
    subscriptions := [{ user_id := 1, service_id := 5, notify_email := true,
                        notify_webhook := true, webhook_url := some "http://hook" }],
    alerts := [], nextId := 10 }

def envW : AlertEnv :=
  { emailSend := fun _ _ => Except.ok (), webhookSend := fun _ _ => Except.ok (), now := 7 }

theorem alert_dispatch_tier_gating_witness :
    (dbW.users.find? (fun v => v.id == uW.id) = some uW) ∧
    (¬ (get_limits uW.plan).can_webhook) ∧
    (∀ a ∈ (send_alerts_for_changes envW [cW] dbW).alerts,
      a ∈ dbW.alerts ∨ a.user_id ≠ uW.id ∨ a.channel ≠ AlertChannel.webhook) ∧
    (∃ a ∈ (send_alerts_for_changes envW [cW] dbW).alerts,
      a.user_id = uW.id ∧ a.change_id = cW.id ∧ a.channel = AlertChannel.email) :=
  ⟨by decide, by decide,
   (alert_dispatch_tier_gating envW [cW] dbW uW (by decide)).2.1 (by decide),
   (alert_dispatch_tier_gating envW [cW] dbW uW (by decide)).2.2 (by decide)
     cW (by decide)
     { user_id := 1, service_id := 5, notify_email := true,
       notify_webhook := true, webhook_url := some "http://hook" }
     (by decide) (by decide) (by decide) (by decide) (by decide)⟩

theorem get_limits_unknown_plan (p : String) (h : p ∉ PLAN_LIMITS.map Prod.fst) :
    get_limits p = FREE_LIMITS := by
  simp only [PLAN_LIMITS, List.map, List.mem_cons, List.not_mem_nil, or_false] at h
  push_neg at h
  obtain ⟨h1, h2, h3⟩ := h
  unfold get_limits PLAN_LIMITS
  simp only [List.lookup]
  rw [beq_eq_false_iff_ne.mpr h1, beq_eq_false_iff_ne.mpr h2, beq_eq_false_iff_ne.mpr h3]
  rfl

/-- C10: entitlement resolution is total and fails closed — a plan value
with no `PLAN_LIMITS` entry resolves to the FREE tier's limits, and FREE
has neither real-time alerting nor the webhook channel, so the dispatcher
creates zero alert attempts for a subscriber carrying an unrecognized
plan. -/
theorem tier_resolution_fails_closed (p : String) (env : AlertEnv)
    (changes : List ChangeRec) (db : DB) (u : UserRec) :
    (p ∉ PLAN_LIMITS.map Prod.fst → get_limits p = FREE_LIMITS) ∧
    FREE_LIMITS.realtime_alerts = false ∧
    FREE_LIMITS.can_webhook = false ∧
    (db.users.find? (fun v => v.id == u.id) = some u →
      u.plan ∉ PLAN_LIMITS.map Prod.fst →
      ∀ a ∈ (send_alerts_for_changes env changes db).alerts,
        a ∈ db.alerts ∨ a.user_id ≠ u.id) := by
  refine ⟨get_limits_unknown_plan p, rfl, rfl, ?_⟩
  intro hu hplan
  refine dispatcher_skips_user env changes db u hu ?_
  rw [get_limits_unknown_plan u.plan hplan]
  simp [FREE_LIMITS]

/-- A subscriber row carrying the unrecognized plan `"enterprise"`. -/
def uEnt : UserRec := { id := 1, email := "e@example.com", plan := "enterprise" }

def dbEnt : DB :=
  { dbW with users := [uEnt] }

theorem tier_resolution_fails_closed_witness :
    ("enterprise" ∉ PLAN_LIMITS.map Prod.fst) ∧
    get_limits "enterprise" = FREE_LIMITS ∧
    (dbEnt.users.find? (fun v => v.id == uEnt.id) = some uEnt) ∧
    (∀ a ∈ (send_alerts_for_changes envW [cW] dbEnt).alerts,
      a ∈ dbEnt.alerts ∨ a.user_id ≠ uEnt.id) :=
  ⟨by decide,
   (tier_resolution_fails_closed "enterprise" envW [cW] dbEnt uEnt).1 (by decide),
   by decide,
   (tier_resolution_fails_closed "enterprise" envW [cW] dbEnt uEnt).2.2.2
     (by decide) (by decide)⟩

/-! ### Summarizer theorems -/

/-- C6: every classifier failure — a provider-call exception (timeout,
provider error, malformed response) or no configured provider — is
non-fatal and replaced by the deterministic fallback (title
"<target> policy updated", the generic summary, severity minor); a
successful response is normalized: a severity value not in the
critical/major/minor/patch vocabulary (matched case-insensitively — the
code lower-cases before the lookup) becomes minor, and the returned title
is truncated to at most 500 characters. -/
theorem summarizer_degrades_gracefully (env : SummarizerEnv)
    (name old new : String) (secs : List DiffSection) :
    (∀ e, env.call (buildUserMsg name old new secs) = Except.error e →
      summarize_change env name old new secs = fallbackSummary name) ∧
    (¬ ((env.llm_provider = "anthropic" ∧ pyTruthy env.anthropic_api_key) ∨
        pyTruthy env.openai_api_key) →
      summarize_change env name old new secs = fallbackSummary name) ∧
    (fallbackSummary name).title = name ++ " policy updated" ∧
    (fallbackSummary name).severity = Severity.minor ∧
    (∀ r, env.call (buildUserMsg name old new secs) = Except.ok r →
      summarize_change env name old new secs = normalizeResult r ∨
      summarize_change env name old new secs = fallbackSummary name) ∧
    (∀ r : LLMRaw,
      pyLower ((r.severity.getD "minor")).data ∉
        [("critical".data : List Char), "major".data, "minor".data, "patch".data] →
      (normalizeResult r).severity = Severity.minor) ∧
    (∀ r : LLMRaw, (normalizeResult r).title.data.length ≤ 500) := by
  refine ⟨?_, ?_, rfl, rfl, ?_, ?_, ?_⟩
  · intro e hcall
    unfold summarize_change
    dsimp only
    split_ifs with h1 h2
    · rw [hcall]
    · rw [hcall]
    · rfl
  · intro hno
    unfold summarize_change
    dsimp only
    split_ifs with h1 h2
    · exact absurd (Or.inl h1) hno
    · exact absurd (Or.inr h2) hno
    · rfl
  · intro r hcall
    unfold summarize_change
    dsimp only
    split_ifs with h1 h2
    · rw [hcall]; exact Or.inl rfl
    · rw [hcall]; exact Or.inl rfl
    · exact Or.inr rfl
  · intro r hsev
    simp only [List.mem_cons, List.not_mem_nil, or_false, not_or] at hsev
    obtain ⟨n1, n2, n3, n4⟩ := hsev
    unfold normalizeResult
    simp only [if_neg n1, if_neg n2, if_neg n3, if_neg n4]
  · intro r
    show (((r.title.getD "Policy change detected").data.take 500)).length ≤ 500
    calc ((r.title.getD "Policy change detected").data.take 500).length
        ≤ 500 := by
          rw [List.length_take]
          exact min_le_left _ _

/-- A summarizer environment whose provider call times out. -/
def envF : SummarizerEnv :=
  { llm_provider := "anthropic", anthropic_api_key := some "k",
    openai_api_key := none, call := fun _ => Except.error "ReadTimeout" }

theorem summarizer_degrades_gracefully_witness :
    (envF.call (buildUserMsg "Stripe" "old" "new" []) = Except.error "ReadTimeout") ∧
    summarize_change envF "Stripe" "old" "new" [] = fallbackSummary "Stripe" ∧
    (pyLower ((LLMRaw.mk none none (some "urgent")).severity.getD "minor").data ∉
      [("critical".data : List Char), "major".data, "minor".data, "patch".data]) ∧
    (normalizeResult (LLMRaw.mk none none (some "urgent"))).severity = Severity.minor :=
  ⟨rfl,
   (summarizer_degrades_gracefully envF "Stripe" "old" "new" []).1 "ReadTimeout" rfl,
   by decide,
   (summarizer_degrades_gracefully envF "Stripe" "old" "new" []).2.2.2.2.2.1
     (LLMRaw.mk none none (some "urgent")) (by decide)⟩

/-! ### Fetcher theorems -/

theorem fetchLoop_status (env : FetchEnv) (url : String) :
    ∀ rem attempt ws, (fetchLoop env url rem attempt ws).result.status = "ok" ∨
      (fetchLoop env url rem attempt ws).result.status = "error" := by
  intro rem
  induction rem with
  | zero => intro attempt ws; right; rfl
  | succ rem ih =>
    intro attempt ws
    simp only [fetchLoop]
    rcases env.net attempt with body | code | m | m | m
    all_goals dsimp only
    · left; rfl
    · by_cases hc : code = 429
      · rw [if_pos hc]; exact ih _ _
      · rw [if_neg hc]; right; rfl
    · by_cases hr : rem + 1 > 1
      · rw [if_pos hr]; exact ih _ _
      · rw [if_neg hr]; right; rfl
    · by_cases hr : rem + 1 > 1
      · rw [if_pos hr]; exact ih _ _
      · rw [if_neg hr]; right; rfl
    · right; rfl

theorem fetchLoop_rate_limited (env : FetchEnv) (url : String) :
    ∀ rem attempt ws,
      (∀ i, attempt ≤ i → i < attempt + rem → env.net i = NetResponse.httpStatus 429) →
      fetchLoop env url rem attempt ws =
        ⟨errorResult url "Max retries exceeded",
         ws ++ (List.range' (attempt + 1) rem).map (fun t => t * 10)⟩ := by
  intro rem
  induction rem with
  | zero =>
    intro attempt ws _
    simp [fetchLoop]
  | succ rem ih =>
    intro attempt ws hnet
    have h0 := hnet attempt (le_refl _) (by omega)
    simp only [fetchLoop]
    rw [h0]
    dsimp only
    simp only [if_pos rfl]
    rw [ih (attempt + 1) _ (fun i hi1 hi2 => hnet i (by omega) (by omega))]
    have hr : List.range' (attempt + 1) (rem + 1) =
        (attempt + 1) :: List.range' (attempt + 2) rem := rfl
    rw [hr]
    simp [List.append_assoc]

theorem fetchLoop_transient (env : FetchEnv) (url : String) (msg : Nat → String) :
    ∀ rem attempt ws, 1 ≤ rem →
      (∀ i, attempt ≤ i → i < attempt + rem →
        env.net i = NetResponse.timeoutExc (msg i) ∨
        env.net i = NetResponse.connectExc (msg i)) →
      fetchLoop env url rem attempt ws =
        ⟨errorResult url (msg (attempt + rem - 1)),
         ws ++ (List.range' (attempt + 1) (rem - 1)).map (fun t => t * 5)⟩ := by
  intro rem
  induction rem with
  | zero => intro attempt ws h; omega
  | succ rem ih =>
    intro attempt ws _ hnet
    have h0 := hnet attempt (le_refl _) (by omega)
    rw [fetchLoop]
    rcases h0 with h0 | h0 <;>
    · rw [h0]
      dsimp only
      by_cases hrem : 1 ≤ rem
      · rw [if_pos (by omega)]
        rw [ih (attempt + 1) (ws ++ [(attempt + 1) * 5]) hrem
          (fun i hi1 hi2 => hnet i (by omega) (by omega))]
        have hrw : rem = (rem - 1) + 1 := by omega
        have hr : List.range' (attempt + 1) (rem + 1 - 1) =
            (attempt + 1) :: List.range' (attempt + 2) (rem - 1) := by
          conv_lhs => rw [show rem + 1 - 1 = (rem - 1) + 1 from by omega]
          rfl
        have hend : attempt + 1 + rem - 1 = attempt + (rem + 1) - 1 := by omega
        rw [hr, hend]
        simp [List.append_assoc]
      · have hz : rem = 0 := by omega
        subst hz
        rw [if_neg (by omega)]
        simp

/-- C2: `fetch_page` reports failures instead of throwing — its result
always carries status "ok" or "error"; a non-429 HTTP error status fails
immediately with no retry and no backoff sleep; persistent
timeout/connection errors are retried with linear backoff
(attempt index × 5 s) and the final result carries the last error message;
persistent 429 rate-limit responses are retried with linear backoff
(attempt index × 10 s) and, after exhausting the retries, yield the
"Max retries exceeded" error. -/
theorem fetch_page_retry_contract (env : FetchEnv) (url : String) (retries : Nat)
    (msg : Nat → String) :
    ((fetch_page env url retries).result.status = "ok" ∨
      (fetch_page env url retries).result.status = "error") ∧
    (∀ c, 1 ≤ retries → env.net 0 = NetResponse.httpStatus c → c ≠ 429 →
      fetch_page env url retries = ⟨errorResult url ("HTTP " ++ toString c), []⟩) ∧
    (1 ≤ retries →
      (∀ i, i < retries →
        env.net i = NetResponse.timeoutExc (msg i) ∨
        env.net i = NetResponse.connectExc (msg i)) →
      fetch_page env url retries =
        ⟨errorResult url (msg (retries - 1)),
         (List.range' 1 (retries - 1)).map (fun t => t * 5)⟩) ∧
    ((∀ i, i < retries → env.net i = NetResponse.httpStatus 429) →
      fetch_page env url retries =
        ⟨errorResult url "Max retries exceeded",
         (List.range' 1 retries).map (fun t => t * 10)⟩) := by
  refine ⟨fetchLoop_status env url retries 0 [], ?_, ?_, ?_⟩
  · intro c hret hnet hc
    cases retries with
    | zero => omega
    | succ r =>
      show fetchLoop env url (r + 1) 0 [] = _
      simp only [fetchLoop]
      rw [hnet]
      dsimp only
      rw [if_neg hc]
  · intro hret hnet
    have := fetchLoop_transient env url msg retries 0 [] hret
      (fun i hi1 hi2 => hnet i (by omega))
    simpa using this
  · intro hnet
    have := fetchLoop_rate_limited env url retries 0 []
      (fun i hi1 hi2 => hnet i (by omega))
    simpa using this

/-- Networks that always time out, always rate-limit, and return 404 on
the first attempt. -/
def envTimeout : FetchEnv :=
  { net := fun i => NetResponse.timeoutExc ("timeout " ++ toString i),
    extractText := id, sha256hex := id }

def envRate : FetchEnv :=
  { net := fun _ => NetResponse.httpStatus 429, extractText := id, sha256hex := id }

def env404 : FetchEnv :=
  { net := fun _ => NetResponse.httpStatus 404, extractText := id, sha256hex := id }

theorem fetch_page_retry_contract_witness :
    (env404.net 0 = NetResponse.httpStatus 404) ∧
    fetch_page env404 "http://x" 3 = ⟨errorResult "http://x" "HTTP 404", []⟩ ∧
    fetch_page envTimeout "http://x" 3 =
      ⟨errorResult "http://x" "timeout 2", [5, 10]⟩ ∧
    fetch_page envRate "http://x" 3 =
      ⟨errorResult "http://x" "Max retries exceeded", [10, 20, 30]⟩ :=
  ⟨rfl,
   (fetch_page_retry_contract env404 "http://x" 3
      (fun i => "timeout " ++ toString i)).2.1 404 (by decide) rfl (by decide),
   (fetch_page_retry_contract envTimeout "http://x" 3
      (fun i => "timeout " ++ toString i)).2.2.1 (by decide)
      (fun i _ => Or.inl rfl),
   (fetch_page_retry_contract envRate "http://x" 3
      (fun i => "timeout " ++ toString i)).2.2.2 (fun i _ => rfl)⟩

/-! ### Orchestrator theorems -/

/-- C1: for a scanned (target, url) where the fetch succeeded, a prior
latest snapshot exists and its fingerprint differs from the newly fetched
one, but the diff's similarity ratio is strictly above 0.995, the change
is suppressed: no Change row is created and no classifier call is made,
while the new snapshot is still persisted. -/
theorem triviality_gate_suppresses (env : ScanEnv) (svc : ServiceRec) (url : String)
    (ctype : ChangeType) (s : ScanState) (p : SnapshotRec)
    (hok : (env.fetch url).status = "ok")
    (hprev : get_latest_snapshot s.db svc.id url = some p)
    (hhash : p.content_hash ≠ (env.fetch url).content_hash)
    (hgate : (compute_diff p.content (env.fetch url).content).similarity_ratio >
      mkRat 995 1000) :
    (check_url env svc url ctype s).2 = [] ∧
    (check_url env svc url ctype s).1.db.changes = s.db.changes ∧
    (check_url env svc url ctype s).1.classifierCalls = s.classifierCalls ∧
    (check_url env svc url ctype s).1.db.snapshots = s.db.snapshots ++
      [{ id := s.db.nextId, service_id := svc.id, url := url,
         content_hash := (env.fetch url).content_hash,
         content := (env.fetch url).content,
         word_count := (env.fetch url).word_count, fetched_at := s.clock }] := by
  unfold check_url
  dsimp only
  rw [if_neg (by simp [hok])]
  rw [hprev]
  dsimp only
  rw [if_neg hhash]
  by_cases hch : (compute_diff p.content (env.fetch url).content).has_changes
  · rw [if_neg (by simp [hch])]
    rw [if_pos hgate]
    exact ⟨rfl, rfl, rfl, rfl⟩
  · rw [if_pos (by simp [hch])]
    exact ⟨rfl, rfl, rfl, rfl⟩

/-- Near-duplicate pair: 201 characters differing only in the last one
(similarity 400/402 ≈ 0.995025 > 0.995). -/
def trivOld : String := String.mk (List.replicate 200 'a' ++ ['y'])

def trivNew : String := String.mk (List.replicate 200 'a' ++ ['z'])

def snapC1 : SnapshotRec :=
  { id := 1, service_id := 5, url := "http://x/t", content_hash := "h1",
    content := trivOld, word_count := 1, fetched_at := 0 }

def svcC1 : ServiceRec :=
  { id := 5, name := "SvcX", slug := "svcx", tos_url := some "http://x/t",
    privacy_url := none, is_active := true, last_checked_at := none }

def salesOff : SalesEnv :=
  { dataDirSet := false, dirExists := false, readFeed := none, writeOk := true, now := 0 }

def settingsOff : Settings := { app_url := "http://app", sales_agent_enabled := false }

def envC1 : ScanEnv :=
  { fetch := fun _ =>
      { url := "http://x/t", content := trivNew, content_hash := "h2",
        word_count := 1, status := "ok", error := none },
    llm := envF, alertEnv := envW, sales := salesOff, settings := settingsOff }

def sC1 : ScanState :=
  { db := { users := [], services := [svcC1], snapshots := [snapC1], changes := [],
            subscriptions := [], alerts := [], nextId := 2 },
    clock := 10, classifierCalls := 0 }

set_option maxRecDepth 100000 in
set_option maxHeartbeats 4000000 in
theorem triviality_gate_suppresses_witness :
    ((envC1.fetch "http://x/t").status = "ok") ∧
    (get_latest_snapshot sC1.db svcC1.id "http://x/t" = some snapC1) ∧
    (snapC1.content_hash ≠ (envC1.fetch "http://x/t").content_hash) ∧
    ((compute_diff snapC1.content (envC1.fetch "http://x/t").content).similarity_ratio >
      mkRat 995 1000) ∧
    (check_url envC1 svcC1 "http://x/t" ChangeType.tos_update sC1).2 = [] ∧
    (check_url envC1 svcC1 "http://x/t" ChangeType.tos_update sC1).1.db.changes =
      sC1.db.changes ∧
    (check_url envC1 svcC1 "http://x/t" ChangeType.tos_update sC1).1.classifierCalls =
      sC1.classifierCalls :=
  have h := triviality_gate_suppresses envC1 svcC1 "http://x/t" ChangeType.tos_update
    sC1 snapC1 rfl (by decide) (by decide) (by decide)
  ⟨rfl, by decide, by decide, by decide, h.1, h.2.1, h.2.2.1⟩

theorem check_url_fail (env : ScanEnv) (svc : ServiceRec) (url : String)
    (ctype : ChangeType) (s : ScanState) (h : (env.fetch url).status ≠ "ok") :
    check_url env svc url ctype s = (s, []) := by
  unfold check_url
  dsimp only
  rw [if_pos h]

theorem check_url_ok_effects (env : ScanEnv) (svc : ServiceRec) (url : String)
    (ctype : ChangeType) (s : ScanState) (hok : (env.fetch url).status = "ok") :
    (check_url env svc url ctype s).1.db.snapshots = s.db.snapshots ++
      [{ id := s.db.nextId, service_id := svc.id, url := url,
         content_hash := (env.fetch url).content_hash,
         content := (env.fetch url).content,
         word_count := (env.fetch url).word_count, fetched_at := s.clock }] ∧
    (check_url env svc url ctype s).1.db.services = s.db.services := by
  unfold check_url
  dsimp only
  rw [if_neg (by simp [hok])]
  rcases hprev : get_latest_snapshot s.db svc.id url with _ | p
  · exact ⟨rfl, rfl⟩
  · dsimp only
    by_cases h1 : p.content_hash = (env.fetch url).content_hash
    · rw [if_pos h1]; exact ⟨rfl, rfl⟩
    · rw [if_neg h1]
      by_cases h2 : (compute_diff p.content (env.fetch url).content).has_changes
      · rw [if_neg (by simp [h2])]
        by_cases h3 : (compute_diff p.content (env.fetch url).content).similarity_ratio >
            mkRat 995 1000
        · rw [if_pos h3]; exact ⟨rfl, rfl⟩
        · rw [if_neg h3]; exact ⟨rfl, rfl⟩
      · rw [if_pos (by simp [h2])]; exact ⟨rfl, rfl⟩

theorem check_url_services (env : ScanEnv) (svc : ServiceRec) (url : String)
    (ctype : ChangeType) (s : ScanState) :
    (check_url env svc url ctype s).1.db.services = s.db.services := by
  by_cases hok : (env.fetch url).status = "ok"
  · exact (check_url_ok_effects env svc url ctype s hok).2
  · rw [check_url_fail env svc url ctype s hok]

theorem urlsFold_services (env : ScanEnv) (svc : ServiceRec) :
    ∀ (urls : List (String × ChangeType)) (s : ScanState) (acc : List ChangeRec),
      (urls.foldl (fun (acc : ScanState × List ChangeRec) p =>
        ((check_url env svc p.1 p.2 acc.1).1,
         acc.2 ++ (check_url env svc p.1 p.2 acc.1).2)) (s, acc)).1.db.services =
      s.db.services := by
  intro urls
  induction urls with
  | nil => intro s acc; rfl
  | cons p rest ih =>
    intro s acc
    simp only [List.foldl_cons]
    rw [ih]
    exact check_url_services env svc p.1 p.2 s

theorem check_service_services (env : ScanEnv) (svc : ServiceRec) (s : ScanState) :
    ∃ t, (check_service env svc s).1.db.services = s.db.services.map (fun tt =>
      if tt.id = svc.id then { tt with last_checked_at := some t } else tt) := by
  unfold check_service
  dsimp only
  rw [urlsFold_services]
  exact ⟨_, rfl⟩

/-- C4: when a target has two configured documents, the first fetch
succeeds and the second fails, exactly one new snapshot is persisted for
the target, its last-checked timestamp is still updated, and the scan
proceeds to the next target, whose last-checked timestamp is updated as
well — the fetch failure is contained to the single document. -/
theorem fetch_failure_contained (env : ScanEnv) (svcX svcY : ServiceRec)
    (s0 : ScanState) (u1 u2 : String)
    (htos : svcX.tos_url = some u1) (hpriv : svcX.privacy_url = some u2)
    (hok : (env.fetch u1).status = "ok") (hfail : (env.fetch u2).status ≠ "ok")
    (hactive : s0.db.services.filter (fun t => t.is_active) = [svcX, svcY]) :
    (check_service env svcX s0).1.db.snapshots = s0.db.snapshots ++
      [{ id := s0.db.nextId, service_id := svcX.id, url := u1,
         content_hash := (env.fetch u1).content_hash,
         content := (env.fetch u1).content,
         word_count := (env.fetch u1).word_count, fetched_at := s0.clock }] ∧
    (∃ t1, (check_service env svcX s0).1.db.services = s0.db.services.map (fun t =>
      if t.id = svcX.id then { t with last_checked_at := some t1 } else t)) ∧
    (∃ t1 t2, (scanPhase env s0).1.db.services =
      (s0.db.services.map (fun t =>
        if t.id = svcX.id then { t with last_checked_at := some t1 } else t)).map
        (fun t =>
          if t.id = svcY.id then { t with last_checked_at := some t2 } else t)) := by
  refine ⟨?_, check_service_services env svcX s0, ?_⟩
  · unfold check_service
    rw [htos, hpriv]
    dsimp only
    simp only [List.singleton_append, List.foldl_cons, List.foldl_nil]
    rw [check_url_fail env svcX u2 ChangeType.privacy_update _ hfail]
    exact (check_url_ok_effects env svcX u1 ChangeType.tos_update s0 hok).1
  · unfold scanPhase
    rw [hactive]
    simp only [List.foldl_cons, List.foldl_nil]
    obtain ⟨t2, ht2⟩ := check_service_services env svcY (check_service env svcX s0).1
    obtain ⟨t1, ht1⟩ := check_service_services env svcX s0
    refine ⟨t1, t2, ?_⟩
    dsimp only
    rw [ht2, ht1]

def svcC4 : ServiceRec :=
  { id := 5, name := "SvcX", slug := "svcx", tos_url := some "http://x/t",
    privacy_url := some "http://x/p", is_active := true, last_checked_at := none }

def svcC4Y : ServiceRec :=
  { id := 6, name := "SvcY", slug := "svcy", tos_url := none,
    privacy_url := none, is_active := true, last_checked_at := none }

def envC4 : ScanEnv :=
  { fetch := fun u =>
      if u = "http://x/t" then
        { url := u, content := "hello", content_hash := "h", word_count := 1,
          status := "ok", error := none }
      else
        { url := u, content := "", content_hash := "", word_count := 0,
          status := "error", error := some "timeout" },
    llm := envF, alertEnv := envW, sales := salesOff, settings := settingsOff }

def sC4 : ScanState :=
  { db := { users := [], services := [svcC4, svcC4Y], snapshots := [], changes := [],
            subscriptions := [], alerts := [], nextId := 1 },
    clock := 0, classifierCalls := 0 }

theorem fetch_failure_contained_witness :
    ((envC4.fetch "http://x/t").status = "ok") ∧
    ((envC4.fetch "http://x/p").status ≠ "ok") ∧
    (check_service envC4 svcC4 sC4).1.db.snapshots = sC4.db.snapshots ++
      [{ id := sC4.db.nextId, service_id := svcC4.id, url := "http://x/t",
         content_hash := (envC4.fetch "http://x/t").content_hash,
         content := (envC4.fetch "http://x/t").content,
         word_count := (envC4.fetch "http://x/t").word_count,
         fetched_at := sC4.clock }] ∧
    (∃ t1, (check_service envC4 svcC4 sC4).1.db.services = sC4.db.services.map (fun t =>
      if t.id = svcC4.id then { t with last_checked_at := some t1 } else t)) ∧
    (∃ t1 t2, (scanPhase envC4 sC4).1.db.services =
      (sC4.db.services.map (fun t =>
        if t.id = svcC4.id then { t with last_checked_at := some t1 } else t)).map
        (fun t =>
          if t.id = svcC4Y.id then { t with last_checked_at := some t2 } else t)) :=
  have h := fetch_failure_contained envC4 svcC4 svcC4Y sC4 "http://x/t" "http://x/p"
    rfl rfl (by decide) (by decide) (by decide)
  ⟨by decide, by decide, h.1, h.2.1, h.2.2⟩

/-! ### Change/snapshot invariant (C7) -/

/-- A change is well-formed in `db`: it references an old/new snapshot
pair of the same service and document URL, the old strictly earlier than
the new, and the old is the most recent snapshot fetched prior to the
new one for that (service, url). -/
def GoodChange (db : DB) (c : ChangeRec) : Prop :=
  ∃ old new, old ∈ db.snapshots ∧ new ∈ db.snapshots ∧
    c.snapshot_old_id = old.id ∧ c.snapshot_new_id = new.id ∧
    old.service_id = c.service_id ∧ new.service_id = c.service_id ∧
    old.url = new.url ∧ old.fetched_at < new.fetched_at ∧
    ∀ other ∈ db.snapshots, other.service_id = c.service_id → other.url = old.url →
      other.fetched_at < new.fetched_at → other.fetched_at ≤ old.fetched_at

theorem latestFold_spec :
    ∀ (l : List SnapshotRec) (acc : Option SnapshotRec) (q : SnapshotRec),
      l.foldl (fun best s =>
        match best with
        | none => some s
        | some b => if s.fetched_at > b.fetched_at then some s else some b) acc = some q →
      (q ∈ l ∨ acc = some q) ∧ (∀ x ∈ l, x.fetched_at ≤ q.fetched_at) ∧
      (∀ b, acc = some b → b.fetched_at ≤ q.fetched_at) := by
  intro l
  induction l with
  | nil =>
    intro acc q h
    simp only [List.foldl_nil] at h
    refine ⟨Or.inr h, by simp, ?_⟩
    intro b hb
    rw [hb] at h
    cases h
    exact le_refl _
  | cons x rest ih =>
    intro acc q h
    simp only [List.foldl_cons] at h
    rcases acc with _ | b
    · dsimp only at h
      obtain ⟨hmem, hbound, hacc⟩ := ih (some x) q h
      refine ⟨?_, ?_, ?_⟩
      · rcases hmem with h1 | h1
        · exact Or.inl (List.mem_cons_of_mem _ h1)
        · have hxq : x = q := by simpa using h1
          exact Or.inl (hxq ▸ List.mem_cons_self _ _)
      · intro y hy
        rcases List.mem_cons.mp hy with h1 | h1
        · rw [h1]; exact hacc x rfl
        · exact hbound y h1
      · intro b hb
        cases hb
    · dsimp only at h
      by_cases hcmp : x.fetched_at > b.fetched_at
      · rw [if_pos hcmp] at h
        obtain ⟨hmem, hbound, hacc⟩ := ih (some x) q h
        refine ⟨?_, ?_, ?_⟩
        · rcases hmem with h1 | h1
          · exact Or.inl (List.mem_cons_of_mem _ h1)
          · have hxq : x = q := by simpa using h1
            exact Or.inl (hxq ▸ List.mem_cons_self _ _)
        · intro y hy
          rcases List.mem_cons.mp hy with h1 | h1
          · rw [h1]; exact hacc x rfl
          · exact hbound y h1
        · intro b' hb'
          have hb'' : b' = b := by
            rw [Option.some_inj] at hb'
            exact hb'.symm
          subst hb''
          have := hacc x rfl
          omega
      · rw [if_neg hcmp] at h
        obtain ⟨hmem, hbound, hacc⟩ := ih (some b) q h
        refine ⟨?_, ?_, ?_⟩
        · rcases hmem with h1 | h1
          · exact Or.inl (List.mem_cons_of_mem _ h1)
          · exact Or.inr h1
        · intro y hy
          rcases List.mem_cons.mp hy with h1 | h1
          · have := hacc b rfl
            rw [h1]
            omega
          · exact hbound y h1
        · intro b' hb'
          have hb'' : b' = b := by
            rw [Option.some_inj] at hb'
            exact hb'.symm
          subst hb''
          exact hacc b' rfl

theorem get_latest_spec (db : DB) (sid : Nat) (url : String) (p : SnapshotRec)
    (h : get_latest_snapshot db sid url = some p) :
    p ∈ db.snapshots ∧ p.service_id = sid ∧ p.url = url ∧
    ∀ other ∈ db.snapshots, other.service_id = sid → other.url = url →
      other.fetched_at ≤ p.fetched_at := by
  unfold get_latest_snapshot at h
  obtain ⟨hmem, hbound, _⟩ := latestFold_spec _ none p h
  have hmem' : p ∈ db.snapshots.filter
      (fun s => s.service_id == sid && s.url == url) := by
    rcases hmem with h1 | h1
    · exact h1
    · cases h1
  have hp := List.mem_filter.mp hmem'
  have hprops : p.service_id = sid ∧ p.url = url := by
    have := hp.2
    simp only [Bool.and_eq_true, beq_iff_eq] at this
    exact this
  refine ⟨hp.1, hprops.1, hprops.2, ?_⟩
  intro other hother hsid hurl
  refine hbound other ?_
  rw [List.mem_filter]
  exact ⟨hother, by simp [hsid, hurl]⟩

theorem goodChange_mono (db db' : DB) (c : ChangeRec) (extra : List SnapshotRec)
    (bound : Nat)
    (hgood : GoodChange db c)
    (hwf : ∀ sn ∈ db.snapshots, sn.fetched_at < bound)
    (hextra : ∀ e ∈ extra, bound ≤ e.fetched_at)
    (heq : db'.snapshots = db.snapshots ++ extra) :
    GoodChange db' c := by
  obtain ⟨old, new, h1, h2, h3, h4, h5, h6, h7, h8, h9⟩ := hgood
  refine ⟨old, new, ?_, ?_, h3, h4, h5, h6, h7, h8, ?_⟩
  · rw [heq]; exact List.mem_append_left _ h1
  · rw [heq]; exact List.mem_append_left _ h2
  · intro other hother hsid hurl hlt
    rw [heq] at hother
    rcases List.mem_append.mp hother with ho | ho
    · exact h9 other ho hsid hurl hlt
    · have hb := hextra other ho
      have hn := hwf new h2
      omega


theorem goodChange_snapshots_congr (db db' : DB) (c : ChangeRec)
    (h : db'.snapshots = db.snapshots) (hgood : GoodChange db c) :
    GoodChange db' c := by
  obtain ⟨old, new, h1, h2, h3, h4, h5, h6, h7, h8, h9⟩ := hgood
  exact ⟨old, new, h ▸ h1, h ▸ h2, h3, h4, h5, h6, h7, h8, fun o ho => h9 o (h ▸ ho)⟩

/-- The snapshot row `check_url` persists for a successful fetch (the
`snap` local of `check_service` in `scheduler.py`). -/
def newSnap (env : ScanEnv) (svc : ServiceRec) (url : String) (s : ScanState) :
    SnapshotRec :=
  { id := s.db.nextId, service_id := svc.id, url := url,
    content_hash := (env.fetch url).content_hash,
    content := (env.fetch url).content,
    word_count := (env.fetch url).word_count, fetched_at := s.clock }

theorem snapwf_aux (l : List SnapshotRec) (x : SnapshotRec) (b b' : Nat)
    (hwf : ∀ sn ∈ l, sn.fetched_at < b) (hx : x.fetched_at < b')
    (hb : b ≤ b') : ∀ sn ∈ l ++ [x], sn.fetched_at < b' := by
  intro sn hsn
  rcases List.mem_append.mp hsn with h1 | h1
  · have := hwf sn h1; omega
  · rw [List.mem_singleton.mp h1]; exact hx

theorem check_url_good (env : ScanEnv) (svc : ServiceRec) (url : String)
    (ctype : ChangeType) (s : ScanState)
    (hwf : ∀ sn ∈ s.db.snapshots, sn.fetched_at < s.clock) :
    (∃ extra, (check_url env svc url ctype s).1.db.snapshots = s.db.snapshots ++ extra ∧
      ∀ e ∈ extra, s.clock ≤ e.fetched_at) ∧
    (∀ sn ∈ (check_url env svc url ctype s).1.db.snapshots,
      sn.fetched_at < (check_url env svc url ctype s).1.clock) ∧
    s.clock ≤ (check_url env svc url ctype s).1.clock ∧
    (∀ c ∈ (check_url env svc url ctype s).2,
      GoodChange (check_url env svc url ctype s).1.db c) := by
  by_cases hok : (env.fetch url).status = "ok"
  case neg =>
    rw [check_url_fail env svc url ctype s hok]
    exact ⟨⟨[], by simp, by simp⟩, hwf, le_refl _, by simp⟩
  case pos =>
  unfold check_url
  dsimp only
  rw [if_neg (by simp [hok])]
  rcases hprev : get_latest_snapshot s.db svc.id url with _ | p
  · refine ⟨⟨_, rfl, ?_⟩, ?_, Nat.le_add_right s.clock 1, ?_⟩
    · intro e he; rw [List.mem_singleton.mp he]
    · exact snapwf_aux s.db.snapshots _ s.clock (s.clock + 1) hwf
        (show s.clock < s.clock + 1 by omega) (by omega)
    · intro c hc; exact absurd hc (List.not_mem_nil c)
  · dsimp only
    obtain ⟨hpmem, hpsid, hpurl, hpmax⟩ := get_latest_spec s.db svc.id url p hprev
    by_cases h1 : p.content_hash = (env.fetch url).content_hash
    · rw [if_pos h1]
      refine ⟨⟨_, rfl, ?_⟩, ?_, Nat.le_add_right s.clock 1, ?_⟩
      · intro e he; rw [List.mem_singleton.mp he]
      · exact snapwf_aux s.db.snapshots _ s.clock (s.clock + 1) hwf
          (show s.clock < s.clock + 1 by omega) (by omega)
      · intro c hc; exact absurd hc (List.not_mem_nil c)
    · rw [if_neg h1]
      by_cases h2 : (compute_diff p.content (env.fetch url).content).has_changes
      · rw [if_neg (by simp [h2])]
        by_cases h3 : (compute_diff p.content (env.fetch url).content).similarity_ratio >
            mkRat 995 1000
        · rw [if_pos h3]
          refine ⟨⟨_, rfl, ?_⟩, ?_, Nat.le_add_right s.clock 1, ?_⟩
          · intro e he; rw [List.mem_singleton.mp he]
          · exact snapwf_aux s.db.snapshots _ s.clock (s.clock + 1) hwf
              (show s.clock < s.clock + 1 by omega) (by omega)
          · intro c hc; exact absurd hc (List.not_mem_nil c)
        · rw [if_neg h3]
          refine ⟨⟨_, rfl, ?_⟩, ?_, Nat.le_add_right s.clock 2, ?_⟩
          · intro e he; rw [List.mem_singleton.mp he]
          · exact snapwf_aux s.db.snapshots _ s.clock (s.clock + 2) hwf
              (show s.clock < s.clock + 2 by omega) (by omega)
          · intro c hc
            rw [List.mem_singleton.mp hc]
            refine ⟨p, newSnap env svc url s, List.mem_append_left _ hpmem,
              List.mem_append_right _ (List.mem_singleton.mpr rfl),
              rfl, rfl, hpsid, rfl, hpurl, hwf p hpmem, ?_⟩
            intro other hother hosid hourl holt
            rcases List.mem_append.mp hother with ho | ho
            · exact hpmax other ho hosid (hourl.trans hpurl)
            · rw [List.mem_singleton.mp ho] at holt
              exact absurd holt (lt_irrefl s.clock)
      · rw [if_pos (by simp [h2])]
        refine ⟨⟨_, rfl, ?_⟩, ?_, Nat.le_add_right s.clock 1, ?_⟩
        · intro e he; rw [List.mem_singleton.mp he]
        · exact snapwf_aux s.db.snapshots _ s.clock (s.clock + 1) hwf
            (show s.clock < s.clock + 1 by omega) (by omega)
        · intro c hc; exact absurd hc (List.not_mem_nil c)

/-- Database evolution across one scan step: snapshots only grow, every
appended snapshot carries the current or a later logical fetch time, and
the well-formedness bound (every stored snapshot strictly precedes the
clock) is re-established at the new clock. -/
def ScanStep (s s' : ScanState) : Prop :=
  (∃ extra, s'.db.snapshots = s.db.snapshots ++ extra ∧
    ∀ e ∈ extra, s.clock ≤ e.fetched_at) ∧
  (∀ sn ∈ s'.db.snapshots, sn.fetched_at < s'.clock) ∧
  s.clock ≤ s'.clock

theorem scanStep_trans (s s' s'' : ScanState) (h1 : ScanStep s s')
    (h2 : ScanStep s' s'') : ScanStep s s'' := by
  obtain ⟨⟨e1, he1, hb1⟩, hwf1, hc1⟩ := h1
  obtain ⟨⟨e2, he2, hb2⟩, hwf2, hc2⟩ := h2
  refine ⟨⟨e1 ++ e2, by rw [he2, he1, List.append_assoc], ?_⟩, hwf2, le_trans hc1 hc2⟩
  intro e he
  rcases List.mem_append.mp he with h | h
  · exact hb1 e h
  · exact le_trans hc1 (hb2 e h)

theorem goodChange_step (s s' : ScanState) (c : ChangeRec)
    (hwf : ∀ sn ∈ s.db.snapshots, sn.fetched_at < s.clock)
    (hst : ScanStep s s') (hg : GoodChange s.db c) : GoodChange s'.db c := by
  obtain ⟨⟨e1, he1, hb1⟩, _, _⟩ := hst
  exact goodChange_mono s.db s'.db c e1 s.clock hg hwf hb1 he1

theorem urlsFold_good (env : ScanEnv) (svc : ServiceRec) :
    ∀ (urls : List (String × ChangeType)) (s : ScanState) (acc : List ChangeRec),
      (∀ sn ∈ s.db.snapshots, sn.fetched_at < s.clock) →
      (∀ c ∈ acc, GoodChange s.db c) →
      ScanStep s ((urls.foldl (fun (acc : ScanState × List ChangeRec) p =>
        ((check_url env svc p.1 p.2 acc.1).1,
         acc.2 ++ (check_url env svc p.1 p.2 acc.1).2)) (s, acc)).1) ∧
      ∀ c ∈ (urls.foldl (fun (acc : ScanState × List ChangeRec) p =>
        ((check_url env svc p.1 p.2 acc.1).1,
         acc.2 ++ (check_url env svc p.1 p.2 acc.1).2)) (s, acc)).2,
        GoodChange (urls.foldl (fun (acc : ScanState × List ChangeRec) p =>
          ((check_url env svc p.1 p.2 acc.1).1,
           acc.2 ++ (check_url env svc p.1 p.2 acc.1).2)) (s, acc)).1.db c := by
  intro urls
  induction urls with
  | nil =>
    intro s acc hwf hgood
    exact ⟨⟨⟨[], by simp, by simp⟩, hwf, le_refl _⟩, hgood⟩
  | cons p rest ih =>
    intro s acc hwf hgood
    simp only [List.foldl_cons]
    have hcu := check_url_good env svc p.1 p.2 s hwf
    have hstep : ScanStep s (check_url env svc p.1 p.2 s).1 :=
      ⟨hcu.1, hcu.2.1, hcu.2.2.1⟩
    have hgood' : ∀ c ∈ acc ++ (check_url env svc p.1 p.2 s).2,
        GoodChange (check_url env svc p.1 p.2 s).1.db c := by
      intro c hc
      rcases List.mem_append.mp hc with h | h
      · exact goodChange_step s _ c hwf hstep (hgood c h)
      · exact hcu.2.2.2 c h
    have hih := ih (check_url env svc p.1 p.2 s).1
      (acc ++ (check_url env svc p.1 p.2 s).2) hcu.2.1 hgood'
    exact ⟨scanStep_trans s _ _ hstep hih.1, hih.2⟩

theorem check_service_good (env : ScanEnv) (svc : ServiceRec) (s : ScanState)
    (hwf : ∀ sn ∈ s.db.snapshots, sn.fetched_at < s.clock) :
    ScanStep s (check_service env svc s).1 ∧
    ∀ c ∈ (check_service env svc s).2, GoodChange (check_service env svc s).1.db c := by
  unfold check_service
  dsimp only
  obtain ⟨⟨⟨e1, he1, hb1⟩, hwf1, hc1⟩, hgood1⟩ :=
    urlsFold_good env svc
      ((match svc.tos_url with
        | some u => [(u, ChangeType.tos_update)]
        | none => []) ++
       (match svc.privacy_url with
        | some u => [(u, ChangeType.privacy_update)]
        | none => [])) s [] hwf (by simp)
  refine ⟨⟨⟨e1, he1, hb1⟩, ?_, le_trans hc1 (Nat.le_succ _)⟩, ?_⟩
  · intro sn hsn
    exact Nat.lt_succ_of_lt (hwf1 sn hsn)
  · intro c hc
    exact goodChange_snapshots_congr _ _ c rfl (hgood1 c hc)

theorem svcFold_good (env : ScanEnv) :
    ∀ (svcs : List ServiceRec) (s : ScanState) (acc : List ChangeRec),
      (∀ sn ∈ s.db.snapshots, sn.fetched_at < s.clock) →
      (∀ c ∈ acc, GoodChange s.db c) →
      ScanStep s ((svcs.foldl (fun (acc : ScanState × List ChangeRec) svc =>
        ((check_service env svc acc.1).1,
         acc.2 ++ (check_service env svc acc.1).2)) (s, acc)).1) ∧
      ∀ c ∈ (svcs.foldl (fun (acc : ScanState × List ChangeRec) svc =>
        ((check_service env svc acc.1).1,
         acc.2 ++ (check_service env svc acc.1).2)) (s, acc)).2,
        GoodChange (svcs.foldl (fun (acc : ScanState × List ChangeRec) svc =>
          ((check_service env svc acc.1).1,
           acc.2 ++ (check_service env svc acc.1).2)) (s, acc)).1.db c := by
  intro svcs
  induction svcs with
  | nil =>
    intro s acc hwf hgood
    exact ⟨⟨⟨[], by simp, by simp⟩, hwf, le_refl _⟩, hgood⟩
  | cons svc rest ih =>
    intro s acc hwf hgood
    simp only [List.foldl_cons]
    have hcs := check_service_good env svc s hwf
    have hgood' : ∀ c ∈ acc ++ (check_service env svc s).2,
        GoodChange (check_service env svc s).1.db c := by
      intro c hc
      rcases List.mem_append.mp hc with h | h
      · exact goodChange_step s _ c hwf hcs.1 (hgood c h)
      · exact hcs.2 c h
    have hih := ih (check_service env svc s).1
      (acc ++ (check_service env svc s).2) hcs.1.2.1 hgood'
    exact ⟨scanStep_trans s _ _ hcs.1 hih.1, hih.2⟩

/-- **C7.** Change–snapshot invariant: when every stored snapshot predates
the scan's starting clock, each `Change` the scan creates references an
old/new snapshot pair present in the resulting database, belonging to the
same service and the same document URL, with `old.fetched_at` strictly
earlier than `new.fetched_at`, and the old snapshot maximal among the
strictly earlier snapshots of that service/URL — i.e. the most recent
prior snapshot, as selected from `_get_latest_snapshot` in
`scheduler.py`. -/
theorem change_snapshot_invariant (env : ScanEnv) (s0 : ScanState)
    (hwf : ∀ sn ∈ s0.db.snapshots, sn.fetched_at < s0.clock) :
    ∀ c ∈ (scanPhase env s0).2, GoodChange (scanPhase env s0).1.db c := by
  unfold scanPhase
  dsimp only
  exact (svcFold_good env (s0.db.services.filter (fun s => s.is_active)) s0 []
    hwf (by simp)).2

def svcC7 : ServiceRec :=
  { id := 1, name := "Svc", slug := "svc", tos_url := some "http://x/t",
    privacy_url := none, is_active := true, last_checked_at := none }

def snapC7 : SnapshotRec :=
  { id := 1, service_id := 1, url := "http://x/t", content_hash := "hA",
    content := "aaaa", word_count := 1, fetched_at := 0 }

def envC7 : ScanEnv :=
  { fetch := fun _ =>
      { url := "http://x/t", content := "bbbb", content_hash := "hB",
        word_count := 1, status := "ok", error := none },
    llm := envF, alertEnv := envW, sales := salesOff, settings := settingsOff }

def sC7 : ScanState :=
  { db := { users := [], services := [svcC7], snapshots := [snapC7], changes := [],
            subscriptions := [], alerts := [], nextId := 2 },
    clock := 1, classifierCalls := 0 }

theorem change_snapshot_invariant_witness :
    (∀ sn ∈ sC7.db.snapshots, sn.fetched_at < sC7.clock) ∧
    ∀ c ∈ (scanPhase envC7 sC7).2, GoodChange (scanPhase envC7 sC7).1.db c :=
  ⟨by decide, change_snapshot_invariant envC7 sC7 (by decide)⟩

theorem push_changes_ok (st : Settings) (env : SalesEnv) (db : DB)
    (changes : List ChangeRec)
    (h : env.dataDirSet = false ∨ env.dirExists = false ∨ env.writeOk = true) :
    ∃ feed, push_changes st env db changes = Except.ok feed := by
  unfold push_changes
  by_cases h1 : env.dataDirSet = true
  · rw [if_neg (by simp [h1])]
    by_cases h2 : env.dirExists = true
    · rw [if_neg (by simp [h2])]
      dsimp only
      have h3 : env.writeOk = true := by
        rcases h with h | h | h
        · exact absurd (h.symm.trans h1) (by decide)
        · exact absurd (h.symm.trans h2) (by decide)
        · exact h
      rw [if_pos h3]
      exact ⟨_, rfl⟩
    · rw [if_pos h2]
      exact ⟨none, rfl⟩
  · rw [if_pos h1]
    exact ⟨none, rfl⟩

/-- **C9 (amended).** Under every failure mode the bridge itself handles —
the data dir not configured, the directory missing, the existing feed file
unreadable — and whenever the final write succeeds, the scan is unaffected:
`run_full_scan` returns `ok` carrying the full list of newly created
changes.  (The uncaught write failure is the sole exception — see the
counterexample.) -/
theorem feed_export_failure_isolation (env : ScanEnv) (s0 : ScanState)
    (h : env.sales.dataDirSet = false ∨ env.sales.dirExists = false ∨
      env.sales.writeOk = true) :
    ∃ st feed, run_full_scan env s0 =
      Except.ok (st, (scanPhase env s0).2, feed) := by
  unfold run_full_scan
  dsimp only
  by_cases he : (scanPhase env s0).2.isEmpty
  · rw [if_pos he]
    exact ⟨(scanPhase env s0).1, none, rfl⟩
  · rw [if_neg he]
    by_cases hs : env.settings.sales_agent_enabled = true
    · rw [if_pos hs]
      obtain ⟨feed, hfeed⟩ :=
        push_changes_ok env.settings env.sales
          (send_alerts_for_changes env.alertEnv (scanPhase env s0).2
            (scanPhase env s0).1.db) (scanPhase env s0).2 h
      rw [hfeed]
      exact ⟨_, feed, rfl⟩
    · rw [if_neg hs]
      exact ⟨_, none, rfl⟩

theorem feed_export_failure_isolation_witness :
    (envC7.sales.dataDirSet = false ∨ envC7.sales.dirExists = false ∨
      envC7.sales.writeOk = true) ∧
    ∃ st feed, run_full_scan envC7 sC7 =
      Except.ok (st, (scanPhase envC7 sC7).2, feed) :=
  ⟨by decide, feed_export_failure_isolation envC7 sC7 (by decide)⟩

def salesBroken : SalesEnv :=
  { dataDirSet := true, dirExists := true, readFeed := none, writeOk := false,
    now := 0 }

def settingsOn : Settings := { app_url := "http://app", sales_agent_enabled := true }

def envC9 : ScanEnv :=
  { fetch := fun _ =>
      { url := "http://x/t", content := "bbbb", content_hash := "hB",
        word_count := 1, status := "ok", error := none },
    llm := envF, alertEnv := envW, sales := salesBroken, settings := settingsOn }

/-- **C9 counterexample.** With the sales bridge enabled, its directory
present, and the feed-file write failing, a scan that does detect a change
(previous snapshot `"aaaa"`, fetched content `"bbbb"`) makes
`run_full_scan` itself fail: `push_changes`'s final `write_text` is not
inside any `try`, and the `await push_changes(...)` call in
`run_full_scan` is not wrapped either, so the `OSError` propagates out and
the scan does not return its change list. -/
theorem feed_export_failure_not_contained :
    (scanPhase envC9 sC7).2 ≠ [] ∧
    run_full_scan envC9 sC7 = Except.error "OSError: feed write failed" := by
  constructor
  · decide
  · rfl

/-! ### Structural invariants of the matching blocks -/

section SequenceMatcherInv

variable {α : Type} [DecidableEq α] [Inhabited α]

/-- Block `x` lies left of and above block `y`: `x`'s matched ranges end
no later than `y`'s begin, on both sides. -/
def LeftOf (x y : Nat × Nat × Nat) : Prop :=
  x.1 + x.2.2 ≤ y.1 ∧ x.2.1 + x.2.2 ≤ y.2.1

theorem matchingBlocksF_inv (a b : List α) :
    ∀ (fuel alo ahi blo bhi : Nat), ahi ≤ a.length → bhi ≤ b.length →
      alo ≤ ahi → blo ≤ bhi →
      (∀ x ∈ matchingBlocksF a b fuel alo ahi blo bhi,
        0 < x.2.2 ∧ alo ≤ x.1 ∧ x.1 + x.2.2 ≤ ahi ∧ blo ≤ x.2.1 ∧
        x.2.1 + x.2.2 ≤ bhi ∧ MatchAt a b x.1 x.2.1 x.2.2) ∧
      List.Pairwise LeftOf (matchingBlocksF a b fuel alo ahi blo bhi) := by
  intro fuel
  induction fuel with
  | zero =>
    intro alo ahi blo bhi _ _ _ _
    exact ⟨fun x hx => absurd hx (List.not_mem_nil x), List.Pairwise.nil⟩
  | succ fuel ih =>
    intro alo ahi blo bhi hla hlb hal hbl
    have hbest := flm_spec a b alo ahi blo bhi hla hlb hal hbl
    rcases hflm : findLongestMatch a b alo ahi blo bhi with ⟨i, j, k⟩
    rw [hflm] at hbest
    dsimp only at hbest
    obtain ⟨hai, hbj, hik, hjk, hmat⟩ := hbest
    rw [matchingBlocksF, hflm]
    dsimp only
    by_cases hk : k = 0
    · rw [if_pos hk]
      exact ⟨fun x hx => absurd hx (List.not_mem_nil x), List.Pairwise.nil⟩
    · rw [if_neg hk]
      have hkpos : 0 < k := Nat.pos_of_ne_zero hk
      have hL : (∀ x ∈ (if alo < i ∧ blo < j then
            matchingBlocksF a b fuel alo i blo j else []),
          0 < x.2.2 ∧ alo ≤ x.1 ∧ x.1 + x.2.2 ≤ i ∧ blo ≤ x.2.1 ∧
          x.2.1 + x.2.2 ≤ j ∧ MatchAt a b x.1 x.2.1 x.2.2) ∧
          List.Pairwise LeftOf (if alo < i ∧ blo < j then
            matchingBlocksF a b fuel alo i blo j else []) := by
        by_cases hc : alo < i ∧ blo < j
        · rw [if_pos hc]
          exact ih alo i blo j (by omega) (by omega) (by omega) (by omega)
        · rw [if_neg hc]
          exact ⟨fun x hx => absurd hx (List.not_mem_nil x), List.Pairwise.nil⟩
      have hR : (∀ x ∈ (if i + k < ahi ∧ j + k < bhi then
            matchingBlocksF a b fuel (i + k) ahi (j + k) bhi else []),
          0 < x.2.2 ∧ i + k ≤ x.1 ∧ x.1 + x.2.2 ≤ ahi ∧ j + k ≤ x.2.1 ∧
          x.2.1 + x.2.2 ≤ bhi ∧ MatchAt a b x.1 x.2.1 x.2.2) ∧
          List.Pairwise LeftOf (if i + k < ahi ∧ j + k < bhi then
            matchingBlocksF a b fuel (i + k) ahi (j + k) bhi else []) := by
        by_cases hc : i + k < ahi ∧ j + k < bhi
        · rw [if_pos hc]
          exact ih (i + k) ahi (j + k) bhi hla hlb (by omega) (by omega)
        · rw [if_neg hc]
          exact ⟨fun x hx => absurd hx (List.not_mem_nil x), List.Pairwise.nil⟩
      constructor
      · intro x hx
        rcases List.mem_append.mp hx with hx | hx
        · obtain ⟨h1, h2, h3, h4, h5, h6⟩ := hL.1 x hx
          exact ⟨h1, h2, by omega, h4, by omega, h6⟩
        · rcases List.mem_append.mp hx with hx | hx
          · rw [List.mem_singleton.mp hx]
            exact ⟨hkpos, hai, hik, hbj, hjk, hmat⟩
          · obtain ⟨h1, h2, h3, h4, h5, h6⟩ := hR.1 x hx
            exact ⟨h1, by omega, h3, by omega, h5, h6⟩
      · refine List.pairwise_append.mpr ⟨hL.2, ?_, ?_⟩
        · refine List.pairwise_append.mpr ⟨List.pairwise_singleton _ _, hR.2, ?_⟩
          intro x hx y hy
          rw [List.mem_singleton.mp hx]
          obtain ⟨_, h2, _, h4, _, _⟩ := hR.1 y hy
          exact ⟨h2, h4⟩
        · intro x hx y hy
          obtain ⟨_, _, h3, _, h5, _⟩ := hL.1 x hx
          rcases List.mem_append.mp hy with hy | hy
          · rw [List.mem_singleton.mp hy]
            exact ⟨h3, h5⟩
          · obtain ⟨_, h2, _, h4, _, _⟩ := hR.1 y hy
            exact ⟨by omega, by omega⟩

theorem matchingBlocks_sorted (a b : List α) (fuel alo ahi blo bhi : Nat)
    (hla : ahi ≤ a.length) (hlb : bhi ≤ b.length) (hal : alo ≤ ahi)
    (hbl : blo ≤ bhi) :
    List.insertionSort blockLe (matchingBlocksF a b fuel alo ahi blo bhi) =
      matchingBlocksF a b fuel alo ahi blo bhi := by
  apply List.Sorted.insertionSort_eq
  have h := matchingBlocksF_inv a b fuel alo ahi blo bhi hla hlb hal hbl
  refine List.Pairwise.imp_of_mem ?_ h.2
  intro x y hx hy hxy
  obtain ⟨hk, _, _, _, _, _⟩ := h.1 x hx
  obtain ⟨h1, h2⟩ := hxy
  unfold blockLe
  omega

theorem matchAt_append {a b : List α} {i j k m : Nat} (h1 : MatchAt a b i j k)
    (h2 : MatchAt a b (i + k) (j + k) m) : MatchAt a b i j (k + m) := by
  intro t ht
  by_cases htk : t < k
  · exact h1 t htk
  · have h3 := h2 (t - k) (by omega)
    have e1 : i + k + (t - k) = i + t := by omega
    have e2 : j + k + (t - k) = j + t := by omega
    rw [e1, e2] at h3
    exact h3

theorem collapseAux_inv (a b : List α) :
    ∀ (l : List (Nat × Nat × Nat)) (i1 j1 k1 : Nat),
      MatchAt a b i1 j1 k1 → i1 + k1 ≤ a.length → j1 + k1 ≤ b.length →
      (∀ x ∈ l, x.1 + x.2.2 ≤ a.length ∧ x.2.1 + x.2.2 ≤ b.length ∧
        MatchAt a b x.1 x.2.1 x.2.2) →
      (∀ x ∈ l, i1 + k1 ≤ x.1 ∧ j1 + k1 ≤ x.2.1) →
      List.Pairwise LeftOf l →
      (∀ y ∈ collapseAux i1 j1 k1 l,
        y.1 + y.2.2 ≤ a.length ∧ y.2.1 + y.2.2 ≤ b.length ∧ i1 ≤ y.1 ∧
        j1 ≤ y.2.1 ∧ MatchAt a b y.1 y.2.1 y.2.2) ∧
      List.Pairwise LeftOf (collapseAux i1 j1 k1 l) ∧
      ((collapseAux i1 j1 k1 l).map (fun t => t.2.2)).sum =
        k1 + (l.map (fun t => t.2.2)).sum := by
  intro l
  induction l with
  | nil =>
    intro i1 j1 k1 hm ha hb _ _ _
    by_cases hk : k1 ≠ 0
    · rw [collapseAux, if_pos hk]
      refine ⟨?_, List.pairwise_singleton _ _, by simp⟩
      intro y hy
      rw [List.mem_singleton.mp hy]
      exact ⟨ha, hb, le_refl _, le_refl _, hm⟩
    · rw [collapseAux, if_neg hk]
      refine ⟨fun y hy => absurd hy (List.not_mem_nil y), List.Pairwise.nil, ?_⟩
      simp at hk
      simp [hk]
  | cons hd rest ih =>
    intro i1 j1 k1 hm ha hb hblocks hchain hpw
    obtain ⟨i2, j2, k2⟩ := hd
    obtain ⟨ha2, hb2, hm2⟩ := hblocks _ (List.mem_cons_self _ _)
    dsimp only at ha2 hb2 hm2
    have hblocks' : ∀ x ∈ rest, x.1 + x.2.2 ≤ a.length ∧
        x.2.1 + x.2.2 ≤ b.length ∧ MatchAt a b x.1 x.2.1 x.2.2 :=
      fun x hx => hblocks x (List.mem_cons_of_mem _ hx)
    have hchain2 : ∀ x ∈ rest, i2 + k2 ≤ x.1 ∧ j2 + k2 ≤ x.2.1 := by
      intro x hx
      exact (List.pairwise_cons.mp hpw).1 x hx
    have hpw' : List.Pairwise LeftOf rest := (List.pairwise_cons.mp hpw).2
    obtain ⟨hc1, hc2⟩ := hchain _ (List.mem_cons_self _ _)
    dsimp only at hc1 hc2
    by_cases hadj : i1 + k1 = i2 ∧ j1 + k1 = j2
    · rw [collapseAux, if_pos hadj]
      have hm' : MatchAt a b i1 j1 (k1 + k2) := by
        refine matchAt_append hm ?_
        rw [hadj.1, hadj.2]
        exact hm2
      have hrec := ih i1 j1 (k1 + k2) hm'
        (by omega) (by omega) hblocks'
        (by intro x hx; have := hchain2 x hx; constructor <;> omega) hpw'
      refine ⟨hrec.1, hrec.2.1, ?_⟩
      rw [hrec.2.2]
      simp only [List.map_cons, List.sum_cons]
      omega
    · rw [collapseAux, if_neg hadj]
      have hrec := ih i2 j2 k2 hm2 ha2 hb2 hblocks' hchain2 hpw'
      refine ⟨?_, ?_, ?_⟩
      · intro y hy
        rcases List.mem_append.mp hy with hy | hy
        · have hy' : k1 ≠ 0 ∧ y = (i1, j1, k1) := by
            by_cases hk : k1 ≠ 0
            · rw [if_pos hk] at hy
              exact ⟨hk, List.mem_singleton.mp hy⟩
            · rw [if_neg hk] at hy
              exact absurd hy (List.not_mem_nil y)
          rw [hy'.2]
          exact ⟨ha, hb, le_refl _, le_refl _, hm⟩
        · obtain ⟨y1, y2, y3, y4, y5⟩ := hrec.1 y hy
          exact ⟨y1, y2, by omega, by omega, y5⟩
      · refine List.pairwise_append.mpr ⟨?_, hrec.2.1, ?_⟩
        · by_cases hk : k1 ≠ 0
          · rw [if_pos hk]; exact List.pairwise_singleton _ _
          · rw [if_neg hk]; exact List.Pairwise.nil
        · intro x hx y hy
          have hx' : x = (i1, j1, k1) := by
            by_cases hk : k1 ≠ 0
            · rw [if_pos hk] at hx
              exact List.mem_singleton.mp hx
            · rw [if_neg hk] at hx
              exact absurd hx (List.not_mem_nil x)
          obtain ⟨_, _, y3, y4, _⟩ := hrec.1 y hy
          rw [hx']
          exact ⟨show i1 + k1 ≤ y.1 by omega, show j1 + k1 ≤ y.2.1 by omega⟩
      · rw [List.map_append, List.sum_append, hrec.2.2]
        by_cases hk : k1 ≠ 0
        · rw [if_pos hk]
          simp only [List.map_cons, List.map_nil, List.sum_cons, List.sum_nil]
          omega
        · rw [if_neg hk]
          simp only [Ne, not_not] at hk
          simp only [List.map_cons, List.map_nil, List.sum_cons, List.sum_nil, hk]

theorem sum_le_of_chainA :
    ∀ (l : List (Nat × Nat × Nat)) (lo hi : Nat),
      lo ≤ hi →
      (∀ x ∈ l, lo ≤ x.1 ∧ x.1 + x.2.2 ≤ hi) →
      List.Pairwise LeftOf l →
      (l.map (fun t => t.2.2)).sum + lo ≤ hi := by
  intro l
  induction l with
  | nil => intro lo hi h _ _; simpa using h
  | cons x rest ih =>
    intro lo hi hlh hbound hpw
    obtain ⟨hx1, hx2⟩ := hbound x (List.mem_cons_self _ _)
    have hrest : ∀ y ∈ rest, x.1 + x.2.2 ≤ y.1 ∧ y.1 + y.2.2 ≤ hi := by
      intro y hy
      exact ⟨((List.pairwise_cons.mp hpw).1 y hy).1,
        (hbound y (List.mem_cons_of_mem _ hy)).2⟩
    have hih := ih (x.1 + x.2.2) hi hx2 hrest (List.pairwise_cons.mp hpw).2
    simp only [List.map_cons, List.sum_cons]
    omega

theorem sum_le_of_chainB :
    ∀ (l : List (Nat × Nat × Nat)) (lo hi : Nat),
      lo ≤ hi →
      (∀ x ∈ l, lo ≤ x.2.1 ∧ x.2.1 + x.2.2 ≤ hi) →
      List.Pairwise LeftOf l →
      (l.map (fun t => t.2.2)).sum + lo ≤ hi := by
  intro l
  induction l with
  | nil => intro lo hi h _ _; simpa using h
  | cons x rest ih =>
    intro lo hi hlh hbound hpw
    obtain ⟨hx1, hx2⟩ := hbound x (List.mem_cons_self _ _)
    have hrest : ∀ y ∈ rest, x.2.1 + x.2.2 ≤ y.2.1 ∧ y.2.1 + y.2.2 ≤ hi := by
      intro y hy
      exact ⟨((List.pairwise_cons.mp hpw).1 y hy).2,
        (hbound y (List.mem_cons_of_mem _ hy)).2⟩
    have hih := ih (x.2.1 + x.2.2) hi hx2 hrest (List.pairwise_cons.mp hpw).2
    simp only [List.map_cons, List.sum_cons]
    omega

theorem pyMatchingBlocks_inv (a b : List α) :
    (∀ y ∈ pyMatchingBlocks a b, y.1 + y.2.2 ≤ a.length ∧
      y.2.1 + y.2.2 ≤ b.length ∧ MatchAt a b y.1 y.2.1 y.2.2) ∧
    List.Pairwise LeftOf (pyMatchingBlocks a b) ∧
    ((pyMatchingBlocks a b).map (fun t => t.2.2)).sum ≤ a.length ∧
    ((pyMatchingBlocks a b).map (fun t => t.2.2)).sum ≤ b.length := by
  have hinv := matchingBlocksF_inv a b (a.length + b.length + 1) 0 a.length 0
    b.length (le_refl _) (le_refl _) (Nat.zero_le _) (Nat.zero_le _)
  have hsort := matchingBlocks_sorted a b (a.length + b.length + 1) 0 a.length 0
    b.length (le_refl _) (le_refl _) (Nat.zero_le _) (Nat.zero_le _)
  have hpmb : pyMatchingBlocks a b =
      collapseAux 0 0 0
        (matchingBlocksF a b (a.length + b.length + 1) 0 a.length 0 b.length) ++
      [(a.length, b.length, 0)] := by
    unfold pyMatchingBlocks
    dsimp only
    rw [hsort]
  have hcol := collapseAux_inv a b
    (matchingBlocksF a b (a.length + b.length + 1) 0 a.length 0 b.length) 0 0 0
    (matchAt_zero a b 0 0) (Nat.zero_le _) (Nat.zero_le _)
    (fun x hx => ⟨(hinv.1 x hx).2.2.1, (hinv.1 x hx).2.2.2.2.1,
      (hinv.1 x hx).2.2.2.2.2⟩)
    (fun x hx => ⟨Nat.zero_le _, Nat.zero_le _⟩)
    hinv.2
  have hsumA := sum_le_of_chainA
    (collapseAux 0 0 0
      (matchingBlocksF a b (a.length + b.length + 1) 0 a.length 0 b.length))
    0 a.length (Nat.zero_le _)
    (fun y hy => ⟨Nat.zero_le _, (hcol.1 y hy).1⟩) hcol.2.1
  have hsumB := sum_le_of_chainB
    (collapseAux 0 0 0
      (matchingBlocksF a b (a.length + b.length + 1) 0 a.length 0 b.length))
    0 b.length (Nat.zero_le _)
    (fun y hy => ⟨Nat.zero_le _, (hcol.1 y hy).2.1⟩) hcol.2.1
  rw [hpmb]
  refine ⟨?_, ?_, ?_, ?_⟩
  · intro y hy
    rcases List.mem_append.mp hy with hy | hy
    · exact ⟨(hcol.1 y hy).1, (hcol.1 y hy).2.1, (hcol.1 y hy).2.2.2.2⟩
    · rw [List.mem_singleton.mp hy]
      exact ⟨show a.length + 0 ≤ a.length by omega,
        show b.length + 0 ≤ b.length by omega, matchAt_zero a b _ _⟩
  · refine List.pairwise_append.mpr ⟨hcol.2.1, List.pairwise_singleton _ _, ?_⟩
    intro x hx y hy
    rw [List.mem_singleton.mp hy]
    exact ⟨(hcol.1 x hx).1, (hcol.1 x hx).2.1⟩
  · rw [List.map_append, List.sum_append]
    simp only [List.map_cons, List.map_nil, List.sum_cons, List.sum_nil]
    omega
  · rw [List.map_append, List.sum_append]
    simp only [List.map_cons, List.map_nil, List.sum_cons, List.sum_nil]
    omega

theorem mkRat_ratio_bounds (m d : Nat) (hd : d ≠ 0) (hm : 2 * m ≤ d) :
    0 ≤ mkRat (2 * (m : Int)) d ∧ mkRat (2 * (m : Int)) d ≤ 1 := by
  rw [Rat.mkRat_eq_div]
  have hd0 : (0 : ℚ) < (d : ℚ) := by exact_mod_cast Nat.pos_of_ne_zero hd
  constructor
  · apply div_nonneg _ (le_of_lt hd0)
    positivity
  · rw [div_le_one hd0]
    push_cast
    exact_mod_cast hm

theorem pyRatio_repr (a b : List α) (h : a.length + b.length ≠ 0) :
    ∃ m : Nat, pyRatio a b = mkRat (2 * (m : Int)) (a.length + b.length) ∧
      m ≤ a.length ∧ m ≤ b.length := by
  have hval : pyRatio a b =
      mkRat (2 * ((((pyMatchingBlocks a b).map (fun t => t.2.2)).sum : Nat) : Int))
        (a.length + b.length) := by
    unfold pyRatio
    dsimp only
    rw [if_pos h]
  exact ⟨_, hval, (pyMatchingBlocks_inv a b).2.2.1, (pyMatchingBlocks_inv a b).2.2.2⟩

end SequenceMatcherInv

theorem string_data_inj {A B : String} (h : A.data = B.data) : A = B := by
  cases A; cases B; exact congrArg String.mk h

theorem compute_diff_ratio (A B : String) (h : A ≠ B) :
    (compute_diff A B).similarity_ratio = pyRatio A.data B.data := by
  unfold compute_diff
  rw [if_neg h]
  dsimp only
  by_cases hd : (pyUnifiedDiff (pySplitlines A) (pySplitlines B)).isEmpty = true
  · rw [if_pos hd]
  · rw [if_neg hd]

/-- **C5 (amended).** Both orders of `compute_diff` on distinct texts
report a similarity ratio of the form `2·M / (|A| + |B|)` with the total
matched length `M` at most `min(|A|, |B|)`; the denominator is symmetric
in the two arguments and both values lie in `[0, 1]` — but `M` itself
depends on the argument order, so the metric is not symmetric (see the
counterexample theorem). -/
theorem similarity_ratio_shape (A B : String) (h : A ≠ B) :
    ∃ m m' : Nat,
      m ≤ min A.data.length B.data.length ∧
      m' ≤ min A.data.length B.data.length ∧
      (compute_diff A B).similarity_ratio =
        mkRat (2 * (m : Int)) (A.data.length + B.data.length) ∧
      (compute_diff B A).similarity_ratio =
        mkRat (2 * (m' : Int)) (A.data.length + B.data.length) ∧
      0 ≤ (compute_diff A B).similarity_ratio ∧
      (compute_diff A B).similarity_ratio ≤ 1 ∧
      0 ≤ (compute_diff B A).similarity_ratio ∧
      (compute_diff B A).similarity_ratio ≤ 1 := by
  have hdata : A.data ≠ B.data := fun hd => h (string_data_inj hd)
  have hlen : A.data.length + B.data.length ≠ 0 := by
    intro h0
    have ha : A.data = [] := List.length_eq_zero.mp (by omega)
    have hb : B.data = [] := List.length_eq_zero.mp (by omega)
    exact hdata (ha.trans hb.symm)
  obtain ⟨m, hm, hma, hmb⟩ := pyRatio_repr A.data B.data hlen
  obtain ⟨m', hm', hma', hmb'⟩ := pyRatio_repr B.data A.data (by omega)
  have hAB := compute_diff_ratio A B h
  have hBA := compute_diff_ratio B A (Ne.symm h)
  have e1 : (compute_diff A B).similarity_ratio =
      mkRat (2 * (m : Int)) (A.data.length + B.data.length) := by
    rw [hAB, hm]
  have e2 : (compute_diff B A).similarity_ratio =
      mkRat (2 * (m' : Int)) (A.data.length + B.data.length) := by
    rw [hBA, hm', Nat.add_comm B.data.length A.data.length]
  have b1 := mkRat_ratio_bounds m (A.data.length + B.data.length) hlen (by omega)
  have b2 := mkRat_ratio_bounds m' (A.data.length + B.data.length) hlen (by omega)
  refine ⟨m, m', by omega, by omega, e1, e2, ?_, ?_, ?_, ?_⟩
  · rw [e1]; exact b1.1
  · rw [e1]; exact b1.2
  · rw [e2]; exact b2.1
  · rw [e2]; exact b2.2

set_option maxRecDepth 100000 in
set_option maxHeartbeats 1000000 in
/-- **C5 counterexample.** The similarity metric is not symmetric:
`ratio("ab", "bacb") = 2/3` (matched `"ab"`) but
`ratio("bacb", "ab") = 1/3` (the greedy left-extended first block leaves
only `"b"` matched), so `compute_diff` reports different
`similarity_ratio`s for the two orders of the same distinct pair. -/
theorem similarity_ratio_asymmetric :
    (("ab" : String) ≠ "bacb") ∧
    (compute_diff "ab" "bacb").similarity_ratio = mkRat 2 3 ∧
    (compute_diff "bacb" "ab").similarity_ratio = mkRat 1 3 ∧
    (compute_diff "ab" "bacb").similarity_ratio ≠
      (compute_diff "bacb" "ab").similarity_ratio := by
  exact ⟨by decide, by decide, by decide, by decide⟩

set_option maxRecDepth 100000 in
set_option maxHeartbeats 1000000 in
theorem similarity_ratio_shape_witness :
    (("ab" : String) ≠ "bacb") ∧
    ∃ m m' : Nat,
      m ≤ min ("ab" : String).data.length ("bacb" : String).data.length ∧
      m' ≤ min ("ab" : String).data.length ("bacb" : String).data.length ∧
      (compute_diff "ab" "bacb").similarity_ratio =
        mkRat (2 * (m : Int))
          (("ab" : String).data.length + ("bacb" : String).data.length) ∧
      (compute_diff "bacb" "ab").similarity_ratio =
        mkRat (2 * (m' : Int))
          (("ab" : String).data.length + ("bacb" : String).data.length) ∧
      0 ≤ (compute_diff "ab" "bacb").similarity_ratio ∧
      (compute_diff "ab" "bacb").similarity_ratio ≤ 1 ∧
      0 ≤ (compute_diff "bacb" "ab").similarity_ratio ∧
      (compute_diff "bacb" "ab").similarity_ratio ≤ 1 :=
  ⟨by decide, similarity_ratio_shape "ab" "bacb" (by decide)⟩

section OpcodesInv

variable {α : Type} [DecidableEq α] [Inhabited α]

/-- The cursor position after `get_opcodes` has walked a block list. -/
def endCursor : Nat → Nat → List (Nat × Nat × Nat) → Nat × Nat
  | i, j, [] => (i, j)
  | _, _, (ai, bj, size) :: rest => endCursor (ai + size) (bj + size) rest

theorem endCursor_append_single :
    ∀ (l : List (Nat × Nat × Nat)) (i j x y k : Nat),
      endCursor i j (l ++ [(x, y, k)]) = (x + k, y + k) := by
  intro l
  induction l with
  | nil => intro i j x y k; rfl
  | cons hd rest ih =>
    intro i j x y k
    obtain ⟨ai, bj, size⟩ := hd
    exact ih (ai + size) (bj + size) x y k

theorem opcodesAux_all_equal (a b : List α) :
    ∀ (bl : List (Nat × Nat × Nat)) (i j : Nat),
      (∀ x ∈ bl, i ≤ x.1 ∧ j ≤ x.2.1) →
      (∀ x ∈ bl, MatchAt a b x.1 x.2.1 x.2.2) →
      List.Pairwise LeftOf bl →
      (∀ c ∈ opcodesAux i j bl, c.1 = OpTag.equal) →
      i ≤ (endCursor i j bl).1 ∧ j ≤ (endCursor i j bl).2 ∧
      (endCursor i j bl).1 - i = (endCursor i j bl).2 - j ∧
      MatchAt a b i j ((endCursor i j bl).1 - i) := by
  intro bl
  induction bl with
  | nil =>
    intro i j _ _ _ _
    dsimp only [endCursor]
    refine ⟨le_refl _, le_refl _, show i - i = j - j by omega, ?_⟩
    intro t ht
    exact absurd ht (by omega)
  | cons hd rest ih =>
    intro i j hmono hmatch hpw hall
    obtain ⟨ai, bj, size⟩ := hd
    obtain ⟨h1, h2⟩ := hmono _ (List.mem_cons_self _ _)
    dsimp only at h1 h2
    simp only [opcodesAux] at hall
    have hgap1 : ¬ i < ai := by
      intro hlt
      by_cases hj : j < bj
      · exact OpTag.noConfusion (hall (OpTag.replace, i, ai, j, bj)
          (List.mem_append_left _
            (by rw [if_pos ⟨hlt, hj⟩]; exact List.mem_singleton.mpr rfl)))
      · exact OpTag.noConfusion (hall (OpTag.delete, i, ai, j, bj)
          (List.mem_append_left _
            (by rw [if_neg (by tauto), if_pos hlt]; exact List.mem_singleton.mpr rfl)))
    have hgap2 : ¬ j < bj := by
      intro hj
      exact OpTag.noConfusion (hall (OpTag.insert, i, ai, j, bj)
        (List.mem_append_left _
          (by rw [if_neg (by tauto), if_neg hgap1, if_pos hj]
              exact List.mem_singleton.mpr rfl)))
    have hi : i = ai := by omega
    have hj : j = bj := by omega
    subst hi
    subst hj
    have hrec := ih (i + size) (j + size)
      (fun x hx => (List.pairwise_cons.mp hpw).1 x hx)
      (fun x hx => hmatch x (List.mem_cons_of_mem _ hx))
      (List.pairwise_cons.mp hpw).2
      (fun c hc => hall c (List.mem_append_right _ (List.mem_append_right _ hc)))
    have hmatch0 : MatchAt a b i j size := by
      have := hmatch _ (List.mem_cons_self _ _)
      exact this
    have hend : endCursor i j ((i, j, size) :: rest) =
        endCursor (i + size) (j + size) rest := rfl
    rw [hend]
    obtain ⟨hr1, hr2, hr3, hr4⟩ := hrec
    refine ⟨by omega, by omega, by omega, ?_⟩
    have hcomb := matchAt_append hmatch0 hr4
    have heq : size + ((endCursor (i + size) (j + size) rest).1 - (i + size)) =
        (endCursor (i + size) (j + size) rest).1 - i := by omega
    rw [heq] at hcomb
    exact hcomb

theorem pyOpcodes_all_equal (a b : List α)
    (hall : ∀ c ∈ pyOpcodes a b, c.1 = OpTag.equal) : a = b := by
  have hinv := pyMatchingBlocks_inv a b
  have h := opcodesAux_all_equal a b (pyMatchingBlocks a b) 0 0
    (fun x hx => ⟨Nat.zero_le _, Nat.zero_le _⟩)
    (fun x hx => (hinv.1 x hx).2.2)
    hinv.2.1
    hall
  have hec : endCursor 0 0 (pyMatchingBlocks a b) = (a.length, b.length) := by
    unfold pyMatchingBlocks
    dsimp only
    rw [endCursor_append_single]
    simp
  rw [hec] at h
  obtain ⟨_, _, hlen, hmat⟩ := h
  dsimp only at hlen hmat
  simp only [Nat.sub_zero] at hlen hmat
  apply List.ext_get hlen
  intro n hn1 hn2
  have h3 := (hmat n hn1).2.2
  simp only [Nat.zero_add] at h3
  rw [List.getD_eq_get a default hn1, List.getD_eq_get b default hn2] at h3
  exact h3

end OpcodesInv

theorem groupAux_eq_nil :
    ∀ (l group : List Opcode), groupAux group l = [] →
      (group ++ l).length ≤ 1 ∧ ∀ c ∈ group ++ l, c.1 = OpTag.equal := by
  intro l
  induction l with
  | nil =>
    intro group h
    rw [groupAux] at h
    by_cases hc : group ≠ [] ∧
        ¬(group.length = 1 ∧ (group.headD (OpTag.equal, 0, 0, 0, 0)).1 = OpTag.equal)
    · rw [if_pos hc] at h
      simp at h
    · rw [if_neg hc] at h
      push_neg at hc
      by_cases hg : group = []
      · subst hg
        exact ⟨by simp, by simp⟩
      · obtain ⟨hl1, hhd⟩ := hc hg
        obtain ⟨c, hceq⟩ := List.length_eq_one.mp hl1
        subst hceq
        refine ⟨by simp, ?_⟩
        intro x hx
        have : x = c := by simpa using hx
        rw [this]
        simpa using hhd
  | cons op rest ih =>
    intro group h
    obtain ⟨tag, i1, i2, j1, j2⟩ := op
    rw [groupAux] at h
    by_cases hc : tag = OpTag.equal ∧ 6 < i2 - i1
    · rw [if_pos hc] at h
      simp at h
    · rw [if_neg hc] at h
      have hih := ih (group ++ [(tag, i1, i2, j1, j2)]) h
      constructor
      · have := hih.1
        simp only [List.length_append, List.length_cons, List.length_singleton] at this ⊢
        omega
      · intro c hcm
        apply hih.2
        simp only [List.mem_append, List.mem_cons, List.mem_singleton] at hcm ⊢
        tauto

theorem fixHead_tags (l : List Opcode) :
    (fixHead l).map (fun c => c.1) = l.map (fun c => c.1) := by
  rcases l with _ | ⟨⟨t, i1, i2, j1, j2⟩, rest⟩
  · rfl
  · cases t <;> rfl

theorem fixLast_tags : ∀ (l : List Opcode),
    (fixLast l).map (fun c => c.1) = l.map (fun c => c.1) := by
  intro l
  induction l with
  | nil => rfl
  | cons op rest ih =>
    cases rest with
    | nil =>
      obtain ⟨t, i1, i2, j1, j2⟩ := op
      cases t <;> rfl
    | cons op2 rest2 =>
      obtain ⟨t, i1, i2, j1, j2⟩ := op
      have e : fixLast ((t, i1, i2, j1, j2) :: op2 :: rest2) =
          (t, i1, i2, j1, j2) :: fixLast (op2 :: rest2) := by
        cases t <;> rfl
      rw [e]
      simp only [List.map_cons]
      rw [ih]
      simp only [List.map_cons]

theorem tags_all_equal_transfer {l l' : List Opcode}
    (h : l'.map (fun c => c.1) = l.map (fun c => c.1))
    (hall : ∀ c ∈ l', c.1 = OpTag.equal) : ∀ c ∈ l, c.1 = OpTag.equal := by
  intro c hc
  have hm : c.1 ∈ l.map (fun c => c.1) := List.mem_map_of_mem _ hc
  rw [← h] at hm
  obtain ⟨c', hc', he⟩ := List.mem_map.mp hm
  rw [← he]
  exact hall c' hc'

theorem pyGroupedOpcodes_eq_nil {α : Type} [DecidableEq α] [Inhabited α]
    (a b : List α) (h : pyGroupedOpcodes a b = []) : a = b := by
  unfold pyGroupedOpcodes at h
  dsimp only at h
  have hga := groupAux_eq_nil _ [] h
  have hall' : ∀ c ∈ fixLast (fixHead
      (if pyOpcodes a b = [] then [(OpTag.equal, 0, 1, 0, 1)] else pyOpcodes a b)),
      c.1 = OpTag.equal := by
    intro c hc
    exact hga.2 c (by simpa using hc)
  have hall : ∀ c ∈ (if pyOpcodes a b = [] then [(OpTag.equal, 0, 1, 0, 1)]
      else pyOpcodes a b), c.1 = OpTag.equal :=
    tags_all_equal_transfer (by rw [fixLast_tags, fixHead_tags]) hall'
  apply pyOpcodes_all_equal a b
  by_cases hnil : pyOpcodes a b = []
  · intro c hc
    rw [hnil] at hc
    exact absurd hc (List.not_mem_nil c)
  · intro c hc
    apply hall c
    rw [if_neg hnil]
    exact hc

theorem pyUnifiedDiff_ne_nil (a b : List String) (h : a ≠ b) :
    pyUnifiedDiff a b ≠ [] := by
  unfold pyUnifiedDiff
  dsimp only
  by_cases hg : pyGroupedOpcodes a b = []
  · exact absurd (pyGroupedOpcodes_eq_nil a b hg) h
  · rw [if_neg hg]
    simp

/-- **C8.** For distinct texts, `compute_diff` counts word deltas as
symmetric set differences of the whitespace-tokenized word sets: an added
word is one present in the new text but absent from the old text, and a
removed word the converse, ignoring position and multiplicity.  The
distinctness of the texts guarantees the unified diff is non-empty, so the
counting branch is actually reached. -/
theorem word_delta_set_difference (old_text new_text : String)
    (h : old_text ≠ new_text) :
    (compute_diff old_text new_text).words_added =
      ((((pySplitWs new_text.data).map String.mk).toFinset) \
        (((pySplitWs old_text.data).map String.mk).toFinset)).card ∧
    (compute_diff old_text new_text).words_removed =
      ((((pySplitWs old_text.data).map String.mk).toFinset) \
        (((pySplitWs new_text.data).map String.mk).toFinset)).card := by
  have hlines : pySplitlines old_text ≠ pySplitlines new_text :=
    fun he => h (pySplitlines_injective he)
  have hdiff := pyUnifiedDiff_ne_nil _ _ hlines
  unfold compute_diff
  rw [if_neg h]
  dsimp only
  rw [if_neg (by rw [List.isEmpty_iff]; exact hdiff)]
  exact ⟨rfl, rfl⟩

set_option maxRecDepth 100000 in
set_option maxHeartbeats 4000000 in
theorem word_delta_set_difference_witness :
    (("a b c" : String) ≠ "a b d") ∧
    ((compute_diff "a b c" "a b d").words_added =
      ((((pySplitWs ("a b d" : String).data).map String.mk).toFinset) \
        (((pySplitWs ("a b c" : String).data).map String.mk).toFinset)).card ∧
     (compute_diff "a b c" "a b d").words_removed =
      ((((pySplitWs ("a b c" : String).data).map String.mk).toFinset) \
        (((pySplitWs ("a b d" : String).data).map String.mk).toFinset)).card) ∧
    (compute_diff "a b c" "a b d").words_added = 1 ∧
    (compute_diff "a b c" "a b d").words_removed = 1 :=
  ⟨by decide, word_delta_set_difference "a b c" "a b d" (by decide),
    by decide, by decide⟩
